import Mathlib

/-!
Verification of the warning-normalization, build, boot, process-registry and
orchestration logic of patchlint (src/patchlint.py).

Strings are modelled as `List Char`.  The Python regular expressions used by the
program are simple enough that each `re.sub` / `re.search` / `re.match` call is
embedded as a hand-written scanner that implements exactly the backtracking
behaviour of the original pattern on the character classes involved: all the
greedy quantifiers in these patterns are forced (maximal munch) because the
character class of each quantifier is disjoint from the required following
character, except in the boot-signature pattern, where the interaction of
`\s+.*\s+` is resolved by an explicit search (`sigBody` below).

Whitespace: Python's `\s` (for `str` patterns) and `str.isspace` agree on the
characters relevant here; we embed the set for code points below 0x100
(0x09-0x0d, 0x1c-0x1f, 0x20, 0x85, 0xa0).  Higher Unicode space separators are
not produced by the tools involved and are outside the model.
-/

namespace Patchlint

/-- Length of `dropWhile` never exceeds the length of the input. -/
theorem dropWhileLenLe (p : Char → Bool) (l : List Char) :
    (l.dropWhile p).length ≤ l.length :=
  (l.dropWhile_sublist p).length_le

/-- Whitespace as recognised by Python's `\s` and `str.strip` (code points < 0x100). -/
def isPySpace (c : Char) : Bool :=
  c = ' ' || c = '\t' || c = '\n' || c = '\x0d' || c = '\x0b' || c = '\x0c' ||
  c = '\x1c' || c = '\x1d' || c = '\x1e' || c = '\x1f' || c = '\x85' || c = '\xa0'

/-- ASCII digit, the `[0-9]` / `\d` class of the source patterns. -/
def isDigitB (c : Char) : Bool :=
  '0' ≤ c && c ≤ '9'

/-- Body characters of an ANSI escape sequence: the `[0-9;]` class. -/
def isAnsiBody (c : Char) : Bool :=
  isDigitB c || c = ';'

/-- ASCII letter, the `[A-Za-z]` class terminating an ANSI escape sequence. -/
def isAlphaB (c : Char) : Bool :=
  ('A' ≤ c && c ≤ 'Z') || ('a' ≤ c && c ≤ 'z')

/-- The escape character starting an ANSI sequence. -/
def escChar : Char := '\x1b'

/-- Consume one expected character, returning the rest of the input. -/
def expectChar (c : Char) (s : List Char) : Option (List Char) :=
  match s with
  | [] => none
  | d :: t => if d = c then some t else none

theorem expectChar_length {c : Char} {s t : List Char} (h : expectChar c s = some t) :
    s.length = t.length + 1 := by
  unfold expectChar at h
  split at h
  · exact absurd h (by simp)
  · split at h
    · cases h; simp
    · exact absurd h (by simp)

/-- Try to parse the tail of an ANSI escape sequence after the escape
character itself: a bracket, a run of `[0-9;]`, then one letter.  Returns the
remainder of the input on success.  This is the (deterministic) match attempt
of `ANSI_RE = \x1B\[[0-9;]*[A-Za-z]` at a fixed position: the greedy `[0-9;]*`
is forced because its class is disjoint from `[A-Za-z]`
(patchlint.py line 52). -/
def parseAnsiTail (s : List Char) : Option (List Char) :=
  match expectChar '[' s with
  | none => none
  | some t =>
    match t.dropWhile isAnsiBody with
    | [] => none
    | c :: rest => if isAlphaB c then some rest else none

theorem parseAnsiTail_length {s r : List Char} (h : parseAnsiTail s = some r) :
    r.length < s.length := by
  unfold parseAnsiTail at h
  split at h
  · exact absurd h (by simp)
  next t he =>
    split at h
    · exact absurd h (by simp)
    next c rest hd =>
      split at h
      · cases h
        have h1 := expectChar_length he
        have h2 : (t.dropWhile isAnsiBody).length ≤ t.length := dropWhileLenLe _ t
        rw [hd] at h2
        simp only [List.length_cons] at h2
        omega
      · exact absurd h (by simp)

/-- One-pass scanner for `ANSI_RE.sub("", line)`.  In mode `false` it scans
normally: at an escape character whose tail parses as a full sequence it
switches to mode `true`, which silently consumes the bracket and the
`[0-9;]*` run and drops the terminating letter before returning to normal
scanning (this consumes exactly the match, because the tail was checked to
parse); at an escape character without a full sequence it emits the character
and resumes at the next position, exactly as `re.sub` does after a failed
match attempt. -/
def ansiScan : Bool → List Char → List Char
  | false, [] => []
  | false, c :: rest =>
    if c = escChar && (parseAnsiTail rest).isSome then
      ansiScan true rest
    else c :: ansiScan false rest
  | true, [] => []
  | true, c :: rest =>
    if c = '[' || isAnsiBody c then ansiScan true rest
    else ansiScan false rest

/-- `ANSI_RE.sub("", line)`: remove every ANSI escape sequence, scanning left
to right, continuing after each removed match, and advancing one character
when the escape character does not begin a full sequence
(patchlint.py lines 67 and 79). -/
def ansiStrip (s : List Char) : List Char :=
  ansiScan false s

/-- `re.sub(r"\s+", " ", s)`: replace every maximal run of whitespace by a
single space (patchlint.py line 68).  A whitespace character followed by more
whitespace is dropped; the single replacement space is emitted at the last
character of each run. -/
def collapseWs (s : List Char) : List Char :=
  match s with
  | [] => []
  | c :: rest =>
    if isPySpace c then
      if isPySpace (rest.headD 'x') then collapseWs rest
      else ' ' :: collapseWs rest
    else c :: collapseWs rest

/-- Python `str.rstrip()`: drop trailing whitespace (patchlint.py line 68). -/
def rstripWs (s : List Char) : List Char :=
  (s.reverse.dropWhile isPySpace).reverse

/-- Scanner for `re.sub(r"(^|\s)\./", r"\1", s)` at non-initial positions: a
whitespace character followed by "./" is replaced by the whitespace character
alone (the replacement reinserts group 1), and scanning resumes after the
removed "./". -/
def stripDotSlashAux : List Char → List Char
  | [] => []
  | [c] => [c]
  | [c, d] => [c, d]
  | c :: d :: e :: rest =>
    if isPySpace c && d = '.' && e = '/' then
      c :: stripDotSlashAux rest
    else
      c :: stripDotSlashAux (d :: e :: rest)

/-- `re.sub(r"(^|\s)\./", r"\1", s)` (patchlint.py line 69): the `^`
alternative can only fire at position zero; afterwards only the `\s`
alternative can match. -/
def stripDotSlash (s : List Char) : List Char :=
  if s.take 2 = ['.', '/'] then stripDotSlashAux (s.drop 2) else stripDotSlashAux s

/-- Case-insensitive literal match: `pat` is given in lower case, the matched
input text is returned verbatim, as Python's `re.IGNORECASE` with a
group-reinserting replacement does. -/
def parseCI (pat : List Char) (s : List Char) : Option (List Char × List Char) :=
  match pat, s with
  | [], _ => some ([], s)
  | _ :: _, [] => none
  | p :: ps, c :: cs =>
    if c.toLower = p then
      (parseCI ps cs).map (fun mr => (c :: mr.1, mr.2))
    else none

theorem parseCI_length {pat s m r : List Char} (h : parseCI pat s = some (m, r)) :
    r.length ≤ s.length := by
  induction pat generalizing s m r with
  | nil => simp [parseCI] at h; simp [h]
  | cons p ps ih =>
    match s with
    | [] => simp [parseCI] at h
    | c :: cs =>
      unfold parseCI at h
      split at h
      · rw [Option.map_eq_some'] at h
        obtain ⟨⟨m2, r2⟩, hm, heq⟩ := h
        cases heq
        have := ih hm
        simp
        omega
      · exact absurd h (by simp)

/-- Parse `[0-9]+` greedily: at least one digit, maximal run. -/
def parseDigits1 (s : List Char) : Option (List Char × List Char) :=
  if (s.takeWhile isDigitB).isEmpty then none
  else some (s.takeWhile isDigitB, s.dropWhile isDigitB)

theorem parseDigits1_length {s d r : List Char} (h : parseDigits1 s = some (d, r)) :
    r.length < s.length := by
  unfold parseDigits1 at h
  split at h
  · exact absurd h (by simp)
  next he =>
    cases h
    have hlen := congrArg List.length (s.takeWhile_append_dropWhile isDigitB)
    simp only [List.length_append] at hlen
    have hne : (s.takeWhile isDigitB).length ≠ 0 := by
      intro h0
      rw [List.length_eq_zero] at h0
      rw [h0] at he
      simp at he
    omega

/-- Parse the captured group `\s*:\s*warning:` of the two location patterns
(case-insensitive on "warning"), returning (captured text, rest).  Both `\s*`
runs are forced maximal because whitespace is disjoint from ':' and 'w'/'W'. -/
def parseWarnGroup (s : List Char) : Option (List Char × List Char) :=
  (expectChar ':' (s.dropWhile isPySpace)).bind fun t =>
  (parseCI ("warning:".toList) (t.dropWhile isPySpace)).bind fun mr =>
  some (s.takeWhile isPySpace ++ ':' :: (t.takeWhile isPySpace ++ mr.1), mr.2)

theorem parseWarnGroup_length {s g r : List Char} (h : parseWarnGroup s = some (g, r)) :
    r.length < s.length := by
  unfold parseWarnGroup at h
  cases he : expectChar ':' (s.dropWhile isPySpace) with
  | none => rw [he, Option.none_bind] at h; exact absurd h (by simp)
  | some t =>
    rw [he, Option.some_bind] at h
    cases hw : parseCI ("warning:".toList) (t.dropWhile isPySpace) with
    | none => rw [hw, Option.none_bind] at h; exact absurd h (by simp)
    | some mr =>
      rw [hw, Option.some_bind] at h
      obtain ⟨m2, r2⟩ := mr
      simp only [Option.some.injEq, Prod.mk.injEq] at h
      obtain ⟨_, hr⟩ := h
      have h1 : r2.length ≤ (t.dropWhile isPySpace).length := parseCI_length hw
      have h2 : (t.dropWhile isPySpace).length ≤ t.length := dropWhileLenLe _ t
      have h3 := expectChar_length he
      have h4 : (s.dropWhile isPySpace).length ≤ s.length := dropWhileLenLe _ s
      rw [← hr]
      omega

/-- Match attempt of `WARNING_LOC_COLON_RE = :[0-9]+(:[0-9]+)(\s*:\s*warning:)`
(patchlint.py line 61) at a fixed position; on success returns (text of
group 2, rest of input).  The greedy `[0-9]+` runs are forced because digits
are disjoint from ':'. -/
def tryColonLoc (s : List Char) : Option (List Char × List Char) :=
  (expectChar ':' s).bind fun t =>
  (parseDigits1 t).bind fun d1 =>
  (expectChar ':' d1.2).bind fun t3 =>
  (parseDigits1 t3).bind fun d2 =>
  parseWarnGroup d2.2

theorem tryColonLoc_length {s g r : List Char} (h : tryColonLoc s = some (g, r)) :
    r.length < s.length := by
  unfold tryColonLoc at h
  cases h1 : expectChar ':' s with
  | none => rw [h1, Option.none_bind] at h; exact absurd h (by simp)
  | some t =>
    rw [h1, Option.some_bind] at h
    cases h2 : parseDigits1 t with
    | none => rw [h2, Option.none_bind] at h; exact absurd h (by simp)
    | some d1 =>
      rw [h2, Option.some_bind] at h
      cases h3 : expectChar ':' d1.2 with
      | none => rw [h3, Option.none_bind] at h; exact absurd h (by simp)
      | some t3 =>
        rw [h3, Option.some_bind] at h
        cases h4 : parseDigits1 t3 with
        | none => rw [h4, Option.none_bind] at h; exact absurd h (by simp)
        | some d2 =>
          rw [h4, Option.some_bind] at h
          obtain ⟨dd1, t2⟩ := d1
          obtain ⟨dd2, t4⟩ := d2
          have l1 := expectChar_length h1
          have l2 := parseDigits1_length h2
          have l3 := expectChar_length h3
          have l4 := parseDigits1_length h4
          have l5 := parseWarnGroup_length h
          simp only at l3 l5
          omega

/-- Match attempt of `WARNING_LOC_LINE_RE = :[0-9]+(\s*:\s*warning:)`
(patchlint.py line 62) at a fixed position; on success returns (text of
group 1, rest of input). -/
def tryLineLoc (s : List Char) : Option (List Char × List Char) :=
  (expectChar ':' s).bind fun t =>
  (parseDigits1 t).bind fun d1 =>
  parseWarnGroup d1.2

theorem tryLineLoc_length {s g r : List Char} (h : tryLineLoc s = some (g, r)) :
    r.length < s.length := by
  unfold tryLineLoc at h
  cases h1 : expectChar ':' s with
  | none => rw [h1, Option.none_bind] at h; exact absurd h (by simp)
  | some t =>
    rw [h1, Option.some_bind] at h
    cases h2 : parseDigits1 t with
    | none => rw [h2, Option.none_bind] at h; exact absurd h (by simp)
    | some d1 =>
      rw [h2, Option.some_bind] at h
      obtain ⟨dd1, t2⟩ := d1
      have l1 := expectChar_length h1
      have l2 := parseDigits1_length h2
      have l3 := parseWarnGroup_length h
      simp only at l3
      omega

/-- Scanner for `WARNING_LOC_COLON_RE.sub(r":LINE:COL\2", s)`
(patchlint.py line 70): scan left to right; at each position attempt the
match; on success emit the replacement and skip the remaining matched
characters (the skip counter counts the characters of the match after the
first), resuming the scan right after the match, as `re.sub` does with its
non-overlapping leftmost matches. -/
def colonSubGo : Nat → List Char → List Char
  | _, [] => []
  | n + 1, _ :: rest => colonSubGo n rest
  | 0, c :: rest =>
    match tryColonLoc (c :: rest) with
    | some (g, r) => ":LINE:COL".toList ++ g ++ colonSubGo (rest.length - r.length) rest
    | none => c :: colonSubGo 0 rest

/-- `WARNING_LOC_COLON_RE.sub(r":LINE:COL\2", s)` (patchlint.py line 70). -/
def colonSub (s : List Char) : List Char :=
  colonSubGo 0 s

/-- Scanner for `WARNING_LOC_LINE_RE.sub(r":LINE\1", s)` (patchlint.py
line 71), built like `colonSubGo`. -/
def lineSubGo : Nat → List Char → List Char
  | _, [] => []
  | n + 1, _ :: rest => lineSubGo n rest
  | 0, c :: rest =>
    match tryLineLoc (c :: rest) with
    | some (g, r) => ":LINE".toList ++ g ++ lineSubGo (rest.length - r.length) rest
    | none => c :: lineSubGo 0 rest

/-- `WARNING_LOC_LINE_RE.sub(r":LINE\1", s)` (patchlint.py line 71). -/
def lineSub (s : List Char) : List Char :=
  lineSubGo 0 s

/-- `normalize_warning_line` (patchlint.py lines 65-72): strip ANSI, collapse
whitespace and strip trailing whitespace, strip "./" after start or
whitespace, replace line:column locations, then line-only locations. -/
def normalize_warning_line (s : List Char) : List Char :=
  lineSub (colonSub (stripDotSlash (rstripWs (collapseWs (ansiStrip s)))))

/-- Match of `\s+warning:` (case-insensitive) at a fixed position: at least
one whitespace character, then the literal; the greedy `\s+` is forced
because 'w'/'W' is not whitespace. -/
def wsThenWarningCI (s : List Char) : Bool :=
  match s with
  | [] => false
  | c :: t => isPySpace c && (parseCI ("warning:".toList) (t.dropWhile isPySpace)).isSome

/-- Match of `:\d+(?::\d+)?:\s+warning:` at a fixed position, the part of
`COMPILER_WARNING_RE` following `\S+` (patchlint.py lines 56-59).  Both
alternatives of the optional column group are tried. -/
def warnLocTail (t : List Char) : Bool :=
  match expectChar ':' t with
  | none => false
  | some t1 =>
    match parseDigits1 t1 with
    | none => false
    | some (_, t2) =>
      (match expectChar ':' t2 with
       | none => false
       | some t3 => wsThenWarningCI t3) ||
      (match expectChar ':' t2 with
       | none => false
       | some t3 =>
         match parseDigits1 t3 with
         | none => false
         | some (_, t4) =>
           match expectChar ':' t4 with
           | none => false
           | some t5 => wsThenWarningCI t5)

/-- Match of `\S+:\d+(?::\d+)?:\s+warning:` anchored at the current position:
consume one or more non-whitespace characters, then the location tail.  The
recursion enumerates every possible length of the backtracking `\S+`. -/
def warnFromHere (s : List Char) : Bool :=
  match s with
  | [] => false
  | c :: rest => !isPySpace c && (warnLocTail rest || warnFromHere rest)

/-- `COMPILER_WARNING_RE.search(clean)` (patchlint.py line 80): the pattern may
match starting at any position. -/
def warnSearch (s : List Char) : Bool :=
  match s with
  | [] => false
  | c :: rest => warnFromHere (c :: rest) || warnSearch rest

/-- Python `sorted` on a collection of strings: a stable sort in the
lexicographic code-point order, which is the `≤` of `List Char`. -/
def sortStrs (l : List (List Char)) : List (List Char) :=
  List.insertionSort (· ≤ ·) l

/-- `extract_normalized_warnings(lines)` (patchlint.py lines 75-82): keep the
lines whose ANSI-stripped copy contains a compiler-warning match, normalize
each (from the raw line), deduplicate (the Python set), and sort. -/
def extract_normalized_warnings (lines : List (List Char)) : List (List Char) :=
  sortStrs (((lines.filter fun l => warnSearch (ansiStrip l)).map
    normalize_warning_line).dedup)

/-- `compare_warnings(baseline, candidate)` (patchlint.py lines 85-91), with
the two log files modelled by their line lists: the sorted set difference
candidate minus baseline of the extracted normalized warnings. -/
def compare_warnings (base cand : List (List Char)) : List (List Char) :=
  sortStrs ((extract_normalized_warnings cand).filter
    fun w => !(decide (w ∈ extract_normalized_warnings base)))

/-!
Boot-signature matching (patchlint.py lines 434-448).  The pattern is
`re.match(r"Linux\s+\S+\s+\S+\s+#\d+\s+.*\s+GNU/Linux$", line)`.  Every
quantifier up to `#\d+` is forced maximal because the relevant classes are
disjoint (`\s` / `\S`, digits / whitespace); the final `\s+.*\s+GNU/Linux$`
genuinely backtracks, and is embedded as an explicit search over the three
ways each character can be consumed.
-/

/-- Match of `\s*GNU/Linux$` at a fixed position (`$` also accepts a single
trailing newline, as in Python). -/
def gnuTail (s : List Char) : Bool :=
  match s with
  | [] => false
  | c :: rest =>
    decide (c :: rest = "GNU/Linux".toList) ||
    decide (c :: rest = "GNU/Linux".toList ++ ['\n']) ||
    (isPySpace c && gnuTail rest)

/-- Match of `\s+GNU/Linux$` at a fixed position. -/
def wsGnu (s : List Char) : Bool :=
  match s with
  | [] => false
  | c :: rest => isPySpace c && gnuTail rest

/-- Match of `.*\s+GNU/Linux$` at a fixed position: each character either
begins the final `\s+GNU/Linux$` or is consumed by `.` (anything but a
newline). -/
def dotStarWsGnu (s : List Char) : Bool :=
  match s with
  | [] => false
  | c :: rest => wsGnu (c :: rest) || (decide (c ≠ '\n') && dotStarWsGnu rest)

/-- Match of `\s*.*\s+GNU/Linux$` at a fixed position: each character either
begins the final `\s+GNU/Linux$`, extends the leading `\s*`, or starts the
`.*` segment. -/
def sigBody (s : List Char) : Bool :=
  match s with
  | [] => false
  | c :: rest =>
    wsGnu (c :: rest) ||
    (isPySpace c && sigBody rest) ||
    (decide (c ≠ '\n') && dotStarWsGnu rest)

/-- Consume a literal string. -/
def dropLit (pat s : List Char) : Option (List Char) :=
  if pat.isPrefixOf s then some (s.drop pat.length) else none

/-- Consume `\s+` (maximal; forced when the next pattern element rejects
whitespace). -/
def wsPlus (s : List Char) : Option (List Char) :=
  match s with
  | [] => none
  | c :: rest => if isPySpace c then some (rest.dropWhile isPySpace) else none

/-- Consume `\S+` (maximal; forced when the next pattern element demands
whitespace). -/
def nonWsPlus (s : List Char) : Option (List Char) :=
  match s with
  | [] => none
  | c :: rest =>
    if isPySpace c then none else some (rest.dropWhile (fun x => !isPySpace x))

/-- `re.match(r"Linux\s+\S+\s+\S+\s+#\d+\s+.*\s+GNU/Linux$", line)`
(patchlint.py line 439), as a whole-line matcher anchored at the start. -/
def bootSigMatch (s : List Char) : Bool :=
  match dropLit ("Linux".toList) s with
  | none => false
  | some s1 =>
  match wsPlus s1 with
  | none => false
  | some s2 =>
  match nonWsPlus s2 with
  | none => false
  | some s3 =>
  match wsPlus s3 with
  | none => false
  | some s4 =>
  match nonWsPlus s4 with
  | none => false
  | some s5 =>
  match wsPlus s5 with
  | none => false
  | some s6 =>
  match expectChar '#' s6 with
  | none => false
  | some s7 =>
  match parseDigits1 s7 with
  | none => false
  | some (_, s8) =>
  match s8 with
  | [] => false
  | c :: rest => isPySpace c && sigBody rest

/-- Line-boundary characters of Python `str.splitlines`. -/
def isLineBoundary (c : Char) : Bool :=
  c = '\n' || c = '\x0d' || c = '\x0b' || c = '\x0c' ||
  c = '\x1c' || c = '\x1d' || c = '\x1e' || c = '\x85' ||
  c = '\u2028' || c = '\u2029'

/-- Python `str.splitlines()`: split at line boundaries, treating a
carriage-return/newline pair as a single boundary, with no trailing empty
line. -/
def splitLinesPy (s : List Char) : List (List Char) :=
  match s with
  | [] => []
  | c :: rest =>
    if isLineBoundary c then
      if c = '\x0d' && decide (rest.take 1 = ['\n']) then
        [] :: (match rest with
               | _ :: rest2 => splitLinesPy rest2
               | [] => [])
      else
        [] :: splitLinesPy rest
    else
      match splitLinesPy rest with
      | [] => [[c]]
      | l :: ls => (c :: l) :: ls

/-- Python `str.strip()`: drop leading and trailing whitespace. -/
def pyStrip (s : List Char) : List Char :=
  rstripWs (s.dropWhile isPySpace)

/-- The line list scanned by `boot_test` (patchlint.py lines 434-437): the
transcript with ANSI sequences stripped, stripped of surrounding whitespace,
split into lines, each line stripped. -/
def bootLines (bootOutput : List Char) : List (List Char) :=
  (splitLinesPy (pyStrip (ansiStrip bootOutput))).map pyStrip

/-- The signature-extraction loop of `boot_test` (patchlint.py lines 433-441):
take the last stripped line matching the system-signature pattern (the
reversed scan stops at the first hit); empty if none matches. -/
def extractUname (bootOutput : List Char) : List Char :=
  match (bootLines bootOutput).reverse.find? (fun l => bootSigMatch l) with
  | some l => l
  | none => []

/-- Run an ordered command sequence, stopping at the first non-zero exit code,
which becomes the result; returns the result and the number of commands
actually executed.  This is the command loop shared by `build_config`
(patchlint.py lines 315-320) and the build phase of `boot_test`
(lines 425-429). -/
def runSequence (exec : List String → Int) : List (List String) → Int × Nat
  | [] => (0, 0)
  | cmd :: rest =>
    let rc := exec cmd
    if rc ≠ 0 then (rc, 1)
    else
      let (r, n) := runSequence exec rest
      (r, n + 1)

/-- The fixed command sequence of `build_config` (patchlint.py lines 305-311). -/
def build_commands (config_name : String) : List (List String) :=
  [["vng", "--clean"],
   ["make", config_name],
   ["./scripts/config", "-d", "WERROR"],
   ["make", "olddefconfig"],
   ["vng", "--build", "--skip-config", "KCFLAGS=-Wno-error"]]

/-- `build_config` (patchlint.py lines 291-320), abstracted over the exit code
each external command produces: run the five commands in order, stop at the
first failure, return (exit code, number of commands executed). -/
def build_config (exec : List String → Int) (config_name : String) : Int × Nat :=
  runSequence exec (build_commands config_name)

/-- The build-phase command sequence of `boot_test`
(patchlint.py lines 418-421). -/
def vng_boot_build_commands : List (List String) :=
  [["vng", "--clean"], ["vng", "--build", "KCFLAGS=-Wno-error"]]

/-- `boot_test` (patchlint.py lines 404-448), abstracted over the exit codes
of the build commands and the boot result `(boot_rc, boot_output)` delivered
by `_run_vng_boot`: if a build command fails its code is returned with an
empty signature; otherwise the transcript is scanned for the last
system-signature line, and a clean exit without a signature is forced to
failure. -/
def boot_test (exec : List String → Int) (bootRc : Int) (bootOutput : List Char) :
    Int × List Char :=
  let br := runSequence exec vng_boot_build_commands
  if br.1 ≠ 0 then (br.1, [])
  else
    let uname := extractUname bootOutput
    if bootRc = 0 ∧ uname = [] then (1, uname) else (bootRc, uname)

/-!
Process registry and cancellation (patchlint.py lines 25-46, 99-125).  The
registry state holds the list of tracked process handles (`_child_procs` /
`_child_pids`), the shutdown flag (`_shutdown`), and the accumulated list of
handles that have been sent a termination signal.  All registry operations
run under one lock in the source, so the interleaving of whole operations is
the correct granularity for the model.
-/

structure Registry where
  procs : List Nat
  shutdown : Bool
  signaled : List Nat
deriving Repr, DecidableEq

inductive RegEvent where
  | spawn (h : Nat)
  | reap (h : Nat)
  | cancel
deriving Repr, DecidableEq

/-- One registry operation.  `spawn` (patchlint.py lines 99-114) refuses to
register a process when the shutdown flag is set; `reap` (lines 117-125)
removes the handle, tolerating an absent handle (the `ValueError` branch) as
a no-op; `cancel` (`_sigint_handler`, lines 31-46) sets the shutdown flag and
signals every handle currently registered. -/
def regStep (s : Registry) (e : RegEvent) : Registry :=
  match e with
  | .spawn h => if s.shutdown then s else { s with procs := s.procs ++ [h] }
  | .reap h => { s with procs := s.procs.erase h }
  | .cancel => { s with shutdown := true, signaled := s.signaled ++ s.procs }

/-- `_spawn` (patchlint.py lines 99-114) as seen by its caller: `none` models
the `KeyboardInterrupt` raised when the shutdown flag is set (no process is
started); otherwise the new handle is appended to the registry. -/
def spawnProc (s : Registry) (h : Nat) : Option (Registry × Nat) :=
  if s.shutdown then none
  else some ({ s with procs := s.procs ++ [h] }, h)

/-!
Boot watchdog (`_run_vng_boot`, patchlint.py lines 326-401).  The interaction
with the operating system is abstracted into an environment record: whether
the shutdown flag was set on entry, whether the child finishes before the
60-second timer fires, how it terminates, and the transcript read from the
pseudo-terminal.  The function mirrors the source's control flow on that
record.
-/

/-- `BOOT_TIMEOUT` (patchlint.py line 323). -/
def BOOT_TIMEOUT : Nat := 60

structure BootEnv where
  shutdown : Bool
  finishes : Bool
  exited : Bool
  exitStatus : Nat
  output : List Char

structure BootRun where
  spawned : Bool
  killedByWatchdog : Bool
  rc : Int
  transcript : List Char
deriving Repr, DecidableEq

/-- The timeout text appended to the transcript (patchlint.py line 399). -/
def timeoutText : List Char := "\n[boot timed out]\n".toList

/-- `_run_vng_boot` (patchlint.py lines 326-401) over a `BootEnv`: an early
`(1, "")` return without spawning when the shutdown flag is set; otherwise
the watchdog timer fires iff the child has not finished within
`BOOT_TIMEOUT`, in which case the child is killed, the exit code is forced to
1 (regardless of the wait status), and the timeout text is appended to the
transcript; otherwise the wait status is reported (1 when the child did not
exit normally). -/
def run_vng_boot (env : BootEnv) : BootRun :=
  if env.shutdown then ⟨false, false, 1, []⟩
  else
    let rcWait : Int := if env.exited then (env.exitStatus : Int) else 1
    if !env.finishes then
      ⟨true, true, 1, env.output ++ timeoutText⟩
    else
      ⟨true, false, rcWait, env.output⟩

/-!
Orchestrator result collection (`main`, patchlint.py lines 611-664).  The
thread pool's `with` block (lines 594-609) joins every worker before any
result is collected, so by this point every build job and the boot job have
completed; the model therefore takes the completed job results as inputs.
-/

structure MainOutcome where
  exitCode : Int
  comparisons : Option (List (List (List Char)))
  logsRemoved : Bool
  bootResult : Int × List Char
  bootResultRead : Bool
deriving Repr, DecidableEq

/-- Result collection of `main` (patchlint.py lines 611-664): if any build
job returned non-zero, exit with code 2, leaving the log directory in place,
computing no warning comparison, and never reading the boot future; otherwise
compare warnings per configuration, read the boot result, exit 1 when there
are new warnings or the boot failed (keeping the logs), exit 0 otherwise
(removing the logs).  `bootResult` carries the boot job's already-completed
result in every case: the pool is joined before collection starts, so the
boot job runs to completion (and writes its log) even when a build failed. -/
def patchlint_collect (buildRcs : List Int)
    (baselineLogs candidateLogs : List (List (List Char)))
    (bootRes : Int × List Char) : MainOutcome :=
  let build_failed := buildRcs.any (fun rc => decide (rc ≠ 0))
  if build_failed then
    { exitCode := 2, comparisons := none, logsRemoved := false,
      bootResult := bootRes, bootResultRead := false }
  else
    let results := List.zipWith compare_warnings baselineLogs candidateLogs
    let boot_ok : Bool := decide (bootRes.1 = 0)
    let has_failures := results.any (fun l => !l.isEmpty) || !boot_ok
    { exitCode := if has_failures then 1 else 0,
      comparisons := some results,
      logsRemoved := !has_failures,
      bootResult := bootRes, bootResultRead := true }

/-!
Helper lemmas about `runSequence`.
-/

theorem runSequence_all_ok (exec : List String → Int) (cmds : List (List String))
    (h : ∀ c ∈ cmds, exec c = 0) : runSequence exec cmds = (0, cmds.length) := by
  induction cmds with
  | nil => rfl
  | cons cmd rest ih =>
    have hc : exec cmd = 0 := h cmd (List.mem_cons_self cmd rest)
    have hr : ∀ c ∈ rest, exec c = 0 := fun c hm => h c (List.mem_cons_of_mem cmd hm)
    simp [runSequence, hc, ih hr]

theorem runSequence_first_fail (exec : List String → Int) (cmds : List (List String))
    (i : Nat) (hi : i < cmds.length)
    (hok : ∀ j, j < i → exec (cmds.getD j []) = 0)
    (hfail : exec (cmds.getD i []) ≠ 0) :
    runSequence exec cmds = (exec (cmds.getD i []), i + 1) := by
  induction cmds generalizing i with
  | nil => simp at hi
  | cons cmd rest ih =>
    cases i with
    | zero =>
      simp only [List.getD_cons_zero] at hfail ⊢
      simp [runSequence, hfail]
    | succ i =>
      have hc : exec cmd = 0 := by
        have := hok 0 (Nat.succ_pos i)
        simpa using this
      have hok2 : ∀ j, j < i → exec (rest.getD j []) = 0 := by
        intro j hj
        have := hok (j + 1) (Nat.succ_lt_succ hj)
        simpa using this
      have hi2 : i < rest.length := by simpa using hi
      have hfail2 : exec (rest.getD i []) ≠ 0 := by simpa using hfail
      have := ih i hi2 hok2 hfail2
      simp only [List.getD_cons_succ]
      simp [runSequence, hc, this]

/-- C3: `build_config` runs the fixed five-command sequence (clean, configure
for the named config, disable WERROR, olddefconfig, build with
KCFLAGS=-Wno-error) in order; execution stops at the first command returning
non-zero, whose code is the returned result, with exactly `i + 1` commands
executed; when every command returns 0 the result is 0 with all five commands
executed. -/
theorem build_config_stops_at_first_failure (exec : List String → Int) (cfg : String) :
    build_commands cfg =
      [["vng", "--clean"], ["make", cfg], ["./scripts/config", "-d", "WERROR"],
       ["make", "olddefconfig"], ["vng", "--build", "--skip-config", "KCFLAGS=-Wno-error"]] ∧
    (∀ i, i < 5 →
      (∀ j, j < i → exec ((build_commands cfg).getD j []) = 0) →
      exec ((build_commands cfg).getD i []) ≠ 0 →
      build_config exec cfg = (exec ((build_commands cfg).getD i []), i + 1)) ∧
    ((∀ c ∈ build_commands cfg, exec c = 0) → build_config exec cfg = (0, 5)) := by
  refine ⟨rfl, ?_, ?_⟩
  · intro i hi hok hfail
    exact runSequence_first_fail exec (build_commands cfg) i
      (by simpa [build_commands] using hi) hok hfail
  · intro h
    have := runSequence_all_ok exec (build_commands cfg) h
    simpa [build_config, build_commands] using this

/-- Concrete command-exit-code assignment for the C3 witness: the third
command (disabling WERROR) fails with code 7, everything else succeeds. -/
def exC3 : List String → Int :=
  fun c => if c = ["./scripts/config", "-d", "WERROR"] then 7 else 0

/-- Witness for C3 at a concrete input: with the third step failing, exactly
three commands execute and the result is the failing step's code. -/
theorem build_config_stops_at_first_failure_witness :
    build_config exC3 "allmodconfig" = (7, 3) := by
  have h := (build_config_stops_at_first_failure exC3 "allmodconfig").2.1 2
    (by decide) (by decide) (by decide)
  exact h.trans (by decide)

/-- C5: when the shutdown flag is clear and the boot process has not finished
when the 60-second timer fires, `_run_vng_boot` kills the child, reports exit
code 1 regardless of how the process would have been waited on (so the
outcome is not the process's own exit status), and appends the timeout text
to the captured transcript. -/
theorem run_vng_boot_timeout (env : BootEnv)
    (hsd : env.shutdown = false) (hto : env.finishes = false) :
    (run_vng_boot env).killedByWatchdog = true ∧
    (run_vng_boot env).rc = 1 ∧
    (run_vng_boot env).transcript = env.output ++ timeoutText ∧
    timeoutText <:+ (run_vng_boot env).transcript ∧
    (∀ ex st, run_vng_boot { env with exited := ex, exitStatus := st } = run_vng_boot env) := by
  refine ⟨?_, ?_, ?_, ?_, fun ex st => ?_⟩ <;>
    simp [run_vng_boot, hsd, hto, List.suffix_append]

/-- Witness for C5 at a concrete environment. -/
theorem run_vng_boot_timeout_witness :
    (run_vng_boot ⟨false, false, true, 0, "vm output".toList⟩).killedByWatchdog = true ∧
    (run_vng_boot ⟨false, false, true, 0, "vm output".toList⟩).rc = 1 ∧
    (run_vng_boot ⟨false, false, true, 0, "vm output".toList⟩).transcript =
      "vm output".toList ++ timeoutText ∧
    timeoutText <:+ (run_vng_boot ⟨false, false, true, 0, "vm output".toList⟩).transcript ∧
    (∀ ex st, run_vng_boot ⟨false, false, ex, st, "vm output".toList⟩ =
      run_vng_boot ⟨false, false, true, 0, "vm output".toList⟩) := by
  have h := run_vng_boot_timeout ⟨false, false, true, 0, "vm output".toList⟩ rfl rfl
  exact ⟨h.1, h.2.1, h.2.2.1, h.2.2.2.1, fun ex st => (h.2.2.2.2 ex st).trans rfl⟩

/-- C6: global cancellation signals exactly the processes registered at the
moment of cancellation; reaping removes a handle from the registry and is a
no-op when the handle is already absent; and a handle that was reaped before
cancellation (registered at most once, as each spawn registers a fresh
process object) is not signaled by the cancellation pass. -/
theorem registry_cancel_signals_registered (s : Registry) (h : Nat) :
    (regStep s .cancel).signaled = s.signaled ++ s.procs ∧
    (regStep s (.reap h)).procs = s.procs.erase h ∧
    (h ∉ s.procs → (regStep s (.reap h)).procs = s.procs) ∧
    (s.procs.Nodup →
      h ∉ ((regStep (regStep s (.reap h)) .cancel).signaled.drop s.signaled.length)) := by
  refine ⟨rfl, rfl, ?_, ?_⟩
  · intro hmem
    simp [regStep, List.erase_of_not_mem hmem]
  · intro hnd
    have : (regStep (regStep s (.reap h)) .cancel).signaled =
        s.signaled ++ s.procs.erase h := rfl
    rw [this, List.drop_left]
    exact hnd.not_mem_erase

/-- Witness for C6 at a concrete registry: process 2 was reaped before the
cancellation, so only 1 and 3 are signaled. -/
theorem registry_cancel_signals_registered_witness :
    (regStep ⟨[1, 2, 3], false, []⟩ .cancel).signaled = [] ++ [1, 2, 3] ∧
    (regStep ⟨[1, 2, 3], false, []⟩ (.reap 2)).procs = [1, 2, 3].erase 2 ∧
    (5 ∉ ([1, 2, 3] : List Nat) → (regStep ⟨[1, 2, 3], false, []⟩ (.reap 5)).procs = [1, 2, 3]) ∧
    (([1, 2, 3] : List Nat).Nodup →
      2 ∉ ((regStep (regStep ⟨[1, 2, 3], false, []⟩ (.reap 2)) .cancel).signaled.drop 0)) := by
  have h2 := registry_cancel_signals_registered ⟨[1, 2, 3], false, []⟩ 2
  have h5 := registry_cancel_signals_registered ⟨[1, 2, 3], false, []⟩ 5
  exact ⟨h2.1, h2.2.1, fun hm => h5.2.2.1 hm, fun hnd => h2.2.2.2 hnd⟩

/-- Shutdown persistence: no registry event ever clears the shutdown flag. -/
theorem regStep_shutdown_mono (s : Registry) (e : RegEvent)
    (h : s.shutdown = true) : (regStep s e).shutdown = true := by
  cases e with
  | spawn p => simp [regStep, h]
  | reap p => simpa [regStep] using h
  | cancel => rfl

/-- C7: once the shutdown flag is set it stays set across any sequence of
subsequent registry events; every subsequent `_spawn` call signals
cancellation to its caller (`none`, the `KeyboardInterrupt`) instead of
producing a process, a spawn event leaves the registry unchanged, and
`_run_vng_boot` likewise refuses to start and returns `(1, "")` while the
flag is set. -/
theorem shutdown_blocks_spawn (s : Registry) (hsd : s.shutdown = true)
    (es : List RegEvent) (h : Nat) :
    (es.foldl regStep s).shutdown = true ∧
    spawnProc (es.foldl regStep s) h = none ∧
    regStep (es.foldl regStep s) (.spawn h) = es.foldl regStep s ∧
    (∀ env : BootEnv, env.shutdown = true →
      (run_vng_boot env).spawned = false ∧ (run_vng_boot env).rc = 1 ∧
      (run_vng_boot env).transcript = []) := by
  have hper : (es.foldl regStep s).shutdown = true := by
    induction es generalizing s with
    | nil => exact hsd
    | cons e rest ih => exact ih (regStep s e) (regStep_shutdown_mono s e hsd)
  refine ⟨hper, ?_, ?_, ?_⟩
  · simp [spawnProc, hper]
  · simp [regStep, hper]
  · intro env he
    simp [run_vng_boot, he]

/-- Witness for C7 at a concrete trace: after cancellation, a reap and a spawn
attempt, spawning is still refused and the boot launcher still declines. -/
theorem shutdown_blocks_spawn_witness :
    (([RegEvent.reap 1, RegEvent.spawn 4].foldl regStep ⟨[1, 2], true, [1, 2]⟩).shutdown = true) ∧
    spawnProc ([RegEvent.reap 1, RegEvent.spawn 4].foldl regStep ⟨[1, 2], true, [1, 2]⟩) 9 = none ∧
    regStep ([RegEvent.reap 1, RegEvent.spawn 4].foldl regStep ⟨[1, 2], true, [1, 2]⟩)
      (.spawn 9) = [RegEvent.reap 1, RegEvent.spawn 4].foldl regStep ⟨[1, 2], true, [1, 2]⟩ ∧
    (∀ env : BootEnv, env.shutdown = true →
      (run_vng_boot env).spawned = false ∧ (run_vng_boot env).rc = 1 ∧
      (run_vng_boot env).transcript = []) :=
  shutdown_blocks_spawn ⟨[1, 2], true, [1, 2]⟩ rfl [RegEvent.reap 1, RegEvent.spawn 4] 9

/-- C1: when at least one build job returns a non-zero exit code, the result
collection of `main` attempts no warning comparison, preserves the temporary
log directory, exits with overall code 2, never reads the boot future — and
still carries the boot job's completed result (the worker pool is joined
before collection, so the boot job is not blocked on the failed build). -/
theorem orchestrator_build_failure (buildRcs : List Int)
    (bl cl : List (List (List Char))) (boot : Int × List Char)
    (hfail : ∃ rc ∈ buildRcs, rc ≠ 0) :
    (patchlint_collect buildRcs bl cl boot).exitCode = 2 ∧
    (patchlint_collect buildRcs bl cl boot).comparisons = none ∧
    (patchlint_collect buildRcs bl cl boot).logsRemoved = false ∧
    (patchlint_collect buildRcs bl cl boot).bootResult = boot ∧
    (patchlint_collect buildRcs bl cl boot).bootResultRead = false := by
  obtain ⟨rc, hmem, hrc⟩ := hfail
  have hex : ∃ x ∈ buildRcs, ¬x = 0 := ⟨rc, hmem, hrc⟩
  refine ⟨?_, ?_, ?_, ?_, ?_⟩ <;> simp [patchlint_collect, hex]

/-- Witness for C1 at a concrete input: baseline allmodconfig failed with
code 2; the boot job's completed result (code 0 and its signature) is still
carried. -/
theorem orchestrator_build_failure_witness :
    (patchlint_collect [0, 2, 0, 0] [] [] (0, "sig".toList)).exitCode = 2 ∧
    (patchlint_collect [0, 2, 0, 0] [] [] (0, "sig".toList)).comparisons = none ∧
    (patchlint_collect [0, 2, 0, 0] [] [] (0, "sig".toList)).logsRemoved = false ∧
    (patchlint_collect [0, 2, 0, 0] [] [] (0, "sig".toList)).bootResult = (0, "sig".toList) ∧
    (patchlint_collect [0, 2, 0, 0] [] [] (0, "sig".toList)).bootResultRead = false :=
  orchestrator_build_failure [0, 2, 0, 0] [] [] (0, "sig".toList)
    ⟨2, by decide, by decide⟩

/-!
Lemmas about sorting and membership for `compare_warnings` (C4).
-/

theorem mem_sortStrs {l : List (List Char)} {a : List Char} :
    a ∈ sortStrs l ↔ a ∈ l :=
  (List.perm_insertionSort (· ≤ ·) l).mem_iff

theorem sortStrs_sorted (l : List (List Char)) : (sortStrs l).Sorted (· ≤ ·) :=
  List.sorted_insertionSort (· ≤ ·) l

theorem sortStrs_nodup {l : List (List Char)} (h : l.Nodup) : (sortStrs l).Nodup :=
  (List.perm_insertionSort (· ≤ ·) l).symm.nodup h

theorem extract_nodup (lines : List (List Char)) :
    (extract_normalized_warnings lines).Nodup :=
  sortStrs_nodup (List.nodup_dedup _)

theorem mem_extract {lines : List (List Char)} {w : List Char} :
    w ∈ extract_normalized_warnings lines ↔
      ∃ l ∈ lines, warnSearch (ansiStrip l) = true ∧ normalize_warning_line l = w := by
  unfold extract_normalized_warnings
  rw [mem_sortStrs, List.mem_dedup]
  simp only [List.mem_map, List.mem_filter]
  constructor
  · rintro ⟨l, ⟨hl, hw⟩, hn⟩
    exact ⟨l, hl, hw, hn⟩
  · rintro ⟨l, hl, hw, hn⟩
    exact ⟨l, ⟨hl, hw⟩, hn⟩

/-- C4: `compare_warnings` returns exactly the sorted set difference of the
candidate's deduplicated normalized warnings minus the baseline's: the result
is sorted and duplicate-free, membership is candidate-membership minus
baseline-membership, a diagnostic absent from the candidate (in particular
one only in the baseline) never appears, and the result is empty whenever the
candidate's diagnostics are a subset of the baseline's modulo
normalization. -/
theorem compare_warnings_sorted_set_difference (base cand : List (List Char)) :
    (compare_warnings base cand).Sorted (· ≤ ·) ∧
    (compare_warnings base cand).Nodup ∧
    (∀ w, w ∈ compare_warnings base cand ↔
      (w ∈ extract_normalized_warnings cand ∧ w ∉ extract_normalized_warnings base)) ∧
    (∀ w, w ∉ extract_normalized_warnings cand → w ∉ compare_warnings base cand) ∧
    ((∀ w ∈ extract_normalized_warnings cand, w ∈ extract_normalized_warnings base) →
      compare_warnings base cand = []) := by
  have hmem : ∀ w, w ∈ compare_warnings base cand ↔
      (w ∈ extract_normalized_warnings cand ∧ w ∉ extract_normalized_warnings base) := by
    intro w
    unfold compare_warnings
    rw [mem_sortStrs, List.mem_filter]
    simp
  refine ⟨sortStrs_sorted _, ?_, hmem, ?_, ?_⟩
  · exact sortStrs_nodup (List.Nodup.filter _ (extract_nodup cand))
  · intro w hw hmem2
    exact hw ((hmem w).mp hmem2).1
  · intro hsub
    rw [List.eq_nil_iff_forall_not_mem]
    intro w hw
    obtain ⟨hc, hb⟩ := (hmem w).mp hw
    exact hb (hsub w hc)

/-- Witness for C4 at concrete inputs: the candidate's only diagnostic is the
baseline's diagnostic at a different line and column, so the comparison is
empty. -/
theorem compare_warnings_sorted_set_difference_witness :
    (∀ w ∈ extract_normalized_warnings ["a.c:99:44: warning: foo".toList],
      w ∈ extract_normalized_warnings ["a.c:10:2: warning: foo".toList]) ∧
    compare_warnings ["a.c:10:2: warning: foo".toList] ["a.c:99:44: warning: foo".toList] = [] :=
  ⟨by decide,
   (compare_warnings_sorted_set_difference ["a.c:10:2: warning: foo".toList]
     ["a.c:99:44: warning: foo".toList]).2.2.2.2 (by decide)⟩

/-!
Last-match characterization of the reversed signature scan (C2).
-/

theorem find?_reverse_last {α : Type} (p : α → Bool) (l : List α) (x : α)
    (h : l.reverse.find? p = some x) :
    ∃ pre post, l = pre ++ x :: post ∧ p x = true ∧ ∀ y ∈ post, p y = false := by
  induction l generalizing x with
  | nil => simp at h
  | cons a t ih =>
    rw [List.reverse_cons, List.find?_append] at h
    cases hf : t.reverse.find? p with
    | some y =>
      rw [hf] at h
      simp only [Option.or_some] at h
      cases h
      obtain ⟨pre, post, ht, hp, hpost⟩ := ih x hf
      exact ⟨a :: pre, post, by rw [ht]; simp, hp, hpost⟩
    | none =>
      rw [hf] at h
      simp only [Option.none_or] at h
      have hall : ∀ y ∈ t, p y = false := by
        intro y hy
        have := List.find?_eq_none.mp hf y (List.mem_reverse.mpr hy)
        simpa using this
      have hpa : p a = true := by
        by_cases hp : p a
        · exact hp
        · simp [List.find?, hp] at h
      have hx : x = a := by
        simp [List.find?, hpa] at h
        exact h.symm
      exact ⟨[], t, by simp [hx], hx ▸ hpa, hall⟩

theorem bootSigMatch_nil : bootSigMatch [] = false := by decide

/-- C2: when the boot-phase build commands succeed, `boot_test` takes as
signature the last line of the transcript matching the system-signature
pattern; when no transcript line matches, the signature is empty; and when
additionally the boot process exit code is zero, the returned exit code is
forced to 1 (non-zero) with the empty signature. -/
theorem boot_test_last_signature (exec : List String → Int) (bootRc : Int)
    (out : List Char) (hbuild : ∀ c ∈ vng_boot_build_commands, exec c = 0) :
    ((∃ l ∈ bootLines out, bootSigMatch l = true) →
      ∃ pre post, bootLines out = pre ++ (boot_test exec bootRc out).2 :: post ∧
        bootSigMatch (boot_test exec bootRc out).2 = true ∧
        ∀ l ∈ post, bootSigMatch l = false) ∧
    ((∀ l ∈ bootLines out, bootSigMatch l = false) →
      (boot_test exec bootRc out).2 = []) ∧
    (bootRc = 0 → (∀ l ∈ bootLines out, bootSigMatch l = false) →
      (boot_test exec bootRc out).1 = 1 ∧ (boot_test exec bootRc out).2 = []) := by
  have hbr : runSequence exec vng_boot_build_commands = (0, 2) :=
    runSequence_all_ok exec _ hbuild
  have hbt : boot_test exec bootRc out =
      (if bootRc = 0 ∧ extractUname out = [] then ((1 : Int), extractUname out)
       else (bootRc, extractUname out)) := by
    unfold boot_test
    rw [hbr]
    simp
  refine ⟨?_, ?_, ?_⟩
  · intro hex
    obtain ⟨l0, hl0, hm0⟩ := hex
    have hsome : ((bootLines out).reverse.find? (fun l => bootSigMatch l)).isSome := by
      rw [List.find?_isSome]
      exact ⟨l0, List.mem_reverse.mpr hl0, hm0⟩
    obtain ⟨x, hx⟩ := Option.isSome_iff_exists.mp hsome
    have hux : extractUname out = x := by
      unfold extractUname
      rw [hx]
    have hpx : bootSigMatch x = true := List.find?_some hx
    have hxne : x ≠ [] := by
      intro hnil
      rw [hnil] at hpx
      exact absurd hpx (by rw [bootSigMatch_nil]; simp)
    have hsig : (boot_test exec bootRc out).2 = x := by
      rw [hbt, hux]
      by_cases hc : bootRc = 0 ∧ x = []
      · exact absurd hc.2 hxne
      · simp [hc]
    obtain ⟨pre, post, hdec, hp, hpost⟩ := find?_reverse_last _ _ x hx
    exact ⟨pre, post, hsig ▸ hdec, hsig ▸ hp, hpost⟩
  · intro hnone
    have hn : (bootLines out).reverse.find? (fun l => bootSigMatch l) = none := by
      rw [List.find?_eq_none]
      intro l hl
      simp [hnone l (List.mem_reverse.mp hl)]
    have hu : extractUname out = [] := by
      unfold extractUname
      rw [hn]
    rw [hbt, hu]
    split <;> rfl
  · intro hrc hnone
    have hn : (bootLines out).reverse.find? (fun l => bootSigMatch l) = none := by
      rw [List.find?_eq_none]
      intro l hl
      simp [hnone l (List.mem_reverse.mp hl)]
    have hu : extractUname out = [] := by
      unfold extractUname
      rw [hn]
    rw [hbt, hu]
    simp [hrc]

/-- Command-exit-code assignment for the C2 witness: every build command
succeeds. -/
def exC2 : List String → Int := fun _ => 0

/-- Transcript for the C2 witness: a clean exit whose transcript has no valid
system-signature line. -/
def outC2 : List Char := "booting\x0d\nno uname here\x0d\n".toList

/-- Witness for C2 at a concrete input: exit code 0 with no signature line is
forced to a failure with an empty signature. -/
theorem boot_test_last_signature_witness :
    (boot_test exC2 0 outC2).1 = 1 ∧ (boot_test exC2 0 outC2).2 = [] :=
  (boot_test_last_signature exC2 0 outC2 (by decide)).2.2 rfl (by decide)

/-!
ANSI interleaving (C10): stripping a well-formed ANSI escape sequence from
anywhere inside a line leaves exactly the surrounding text, so
classification by `COMPILER_WARNING_RE.search` on the ANSI-stripped copy is
unaffected by ANSI sequences.
-/

/-- A complete ANSI escape sequence: the escape character, a bracket, a run
of `[0-9;]`, and one terminating letter. -/
def isAnsiSeq (a : List Char) : Bool :=
  match a with
  | e :: b :: t =>
    e = escChar && b = '[' &&
    (match t.dropWhile isAnsiBody with
     | [c] => isAlphaB c
     | _ => false)
  | _ => false

/-- A chunk of a decorated line: either a complete ANSI escape sequence or
plain text containing no escape character. -/
def goodChunk (a : List Char) : Bool :=
  isAnsiSeq a || a.all (fun c => decide (c ≠ escChar))

theorem alphaB_not_ansiBody {c : Char} (h : isAlphaB c = true) : isAnsiBody c = false := by
  simp only [isAlphaB, Bool.or_eq_true, Bool.and_eq_true, decide_eq_true_eq] at h
  simp only [isAnsiBody, isDigitB, Bool.or_eq_false_iff, Bool.and_eq_false_iff]
  constructor
  · right
    simp only [decide_eq_false_iff_not, not_le]
    rcases h with ⟨h1, _⟩ | ⟨h1, _⟩
    · by_contra hc
      push_neg at hc
      exact absurd (le_trans h1 hc) (by decide)
    · by_contra hc
      push_neg at hc
      exact absurd (le_trans h1 hc) (by decide)
  · simp only [decide_eq_false_iff_not]
    rintro rfl
    rcases h with ⟨h1, _⟩ | ⟨h1, _⟩ <;> exact absurd h1 (by decide)

theorem alphaB_ne_bracket {c : Char} (h : isAlphaB c = true) : c ≠ '[' := by
  rintro rfl
  simp only [isAlphaB, Bool.or_eq_true, Bool.and_eq_true, decide_eq_true_eq] at h
  rcases h with ⟨_, h2⟩ | ⟨h1, _⟩
  · exact absurd h2 (by decide)
  · exact absurd h1 (by decide)

theorem dropWhile_append_all {p : Char → Bool} {xs ys : List Char}
    (h : ∀ x ∈ xs, p x = true) :
    (xs ++ ys).dropWhile p = ys.dropWhile p := by
  induction xs with
  | nil => rfl
  | cons a t ih =>
    have ha : p a = true := h a (List.mem_cons_self a t)
    have ht : ∀ x ∈ t, p x = true := fun x hx => h x (List.mem_cons_of_mem a hx)
    simp [List.dropWhile_cons, ha, ih ht]

theorem ansiScan_true_skip {body x : List Char}
    (h : ∀ c ∈ body, isAnsiBody c = true) :
    ansiScan true (body ++ x) = ansiScan true x := by
  induction body with
  | nil => rfl
  | cons a t ih =>
    have ha : isAnsiBody a = true := h a (List.mem_cons_self a t)
    have ht : ∀ c ∈ t, isAnsiBody c = true := fun c hc => h c (List.mem_cons_of_mem a hc)
    simp [ansiScan, ha, ih ht]

theorem ansiStrip_clean_append {s r : List Char} (h : ∀ c ∈ s, c ≠ escChar) :
    ansiStrip (s ++ r) = s ++ ansiStrip r := by
  unfold ansiStrip
  induction s with
  | nil => rfl
  | cons a t ih =>
    have ha : a ≠ escChar := h a (List.mem_cons_self a t)
    have ht : ∀ c ∈ t, c ≠ escChar := fun c hc => h c (List.mem_cons_of_mem a hc)
    simp [ansiScan, ha, ih ht]

theorem ansiStrip_clean {s : List Char} (h : ∀ c ∈ s, c ≠ escChar) :
    ansiStrip s = s := by
  have := @ansiStrip_clean_append s [] h
  simpa [ansiStrip, ansiScan] using this

theorem ansiStrip_seq_append {a r : List Char} (h : isAnsiSeq a = true) :
    ansiStrip (a ++ r) = ansiStrip r := by
  match a with
  | [] => simp [isAnsiSeq] at h
  | [e] => simp [isAnsiSeq] at h
  | e :: b :: t =>
    simp only [isAnsiSeq, Bool.and_eq_true, decide_eq_true_eq] at h
    obtain ⟨⟨he, hb⟩, hm⟩ := h
    subst he hb
    cases hd : t.dropWhile isAnsiBody with
    | nil => rw [hd] at hm; simp at hm
    | cons lc lrest =>
      cases lrest with
      | cons x xs => rw [hd] at hm; simp at hm
      | nil =>
        rw [hd] at hm
        simp only at hm
        have htw : t.takeWhile isAnsiBody ++ [lc] = t := by
          have := t.takeWhile_append_dropWhile isAnsiBody
          rw [hd] at this
          exact this
        have hbody : ∀ c ∈ t.takeWhile isAnsiBody, isAnsiBody c = true :=
          fun c hc => List.mem_takeWhile_imp hc
        have hlnb : isAnsiBody lc = false := alphaB_not_ansiBody hm
        have hlbr : lc ≠ '[' := alphaB_ne_bracket hm
        have hdw : (t ++ r).dropWhile isAnsiBody = lc :: r := by
          conv_lhs => rw [← htw]
          rw [List.append_assoc, dropWhile_append_all hbody]
          simp [List.dropWhile_cons, hlnb]
        have hpt : parseAnsiTail ('[' :: (t ++ r)) = some r := by
          simp [parseAnsiTail, expectChar, hdw, hm]
        show ansiScan false (escChar :: ('[' :: (t ++ r))) = ansiScan false r
        have hcond : (decide (escChar = escChar) &&
            (parseAnsiTail ('[' :: (t ++ r))).isSome) = true := by
          rw [hpt]; simp
        rw [ansiScan, if_pos hcond]
        rw [ansiScan]
        simp only [if_pos (by simp : (decide ('[' = '[') || isAnsiBody '[') = true)]
        have hsplit : t ++ r = t.takeWhile isAnsiBody ++ (lc :: r) := by
          conv_lhs => rw [← htw]
          simp [List.append_assoc]
        rw [hsplit, ansiScan_true_skip hbody]
        rw [ansiScan]
        simp [hlbr, hlnb, ansiStrip]

/-- Joining good chunks and stripping ANSI sequences yields exactly the
plain chunks joined. -/
theorem ansiStrip_chunks (chunks : List (List Char))
    (h : ∀ a ∈ chunks, goodChunk a = true) :
    ansiStrip chunks.flatten = (chunks.filter (fun a => !isAnsiSeq a)).flatten := by
  induction chunks with
  | nil => rfl
  | cons a rest ih =>
    have ha : goodChunk a = true := h a (List.mem_cons_self a rest)
    have hrest : ∀ b ∈ rest, goodChunk b = true :=
      fun b hb => h b (List.mem_cons_of_mem a hb)
    by_cases hseq : isAnsiSeq a = true
    · rw [List.flatten_cons, ansiStrip_seq_append hseq, ih hrest]
      simp [List.filter_cons, hseq]
    · have hclean : ∀ c ∈ a, c ≠ escChar := by
        have := ha
        unfold goodChunk at this
        rw [Bool.or_eq_true] at this
        rcases this with h1 | h1
        · exact absurd h1 hseq
        · intro c hc
          have := List.all_eq_true.mp h1 c hc
          simpa using this
      rw [List.flatten_cons, ansiStrip_clean_append hclean, ih hrest]
      have : isAnsiSeq a = false := by simpa using hseq
      simp [List.filter_cons, this]

/-- The plain part of a good chunk list contains no escape character. -/
theorem plain_chunks_clean (chunks : List (List Char))
    (h : ∀ a ∈ chunks, goodChunk a = true) :
    ∀ c ∈ (chunks.filter (fun a => !isAnsiSeq a)).flatten, c ≠ escChar := by
  intro c hc
  rw [List.mem_flatten] at hc
  obtain ⟨l, hl, hcl⟩ := hc
  rw [List.mem_filter] at hl
  obtain ⟨hmem, hplain⟩ := hl
  have := h l hmem
  unfold goodChunk at this
  rw [Bool.or_eq_true] at this
  rcases this with h1 | h1
  · rw [h1] at hplain; simp at hplain
  · have := List.all_eq_true.mp h1 c hcl
    simpa using this

/-- C10: `extract_normalized_warnings` classifies a line by matching the
diagnostic pattern against its ANSI-stripped copy, so for a line assembled
from plain text interleaved with complete ANSI escape sequences, stripping
recovers exactly the plain text, the classification agrees with the plain
text's, normalization gives the same record as for the undecorated line, and
whenever the plain text matches the diagnostic pattern the decorated line's
normalized warning is extracted. -/
theorem extract_unaffected_by_ansi (chunks : List (List Char))
    (h : ∀ a ∈ chunks, goodChunk a = true) :
    ansiStrip chunks.flatten = (chunks.filter (fun a => !isAnsiSeq a)).flatten ∧
    warnSearch (ansiStrip chunks.flatten) =
      warnSearch ((chunks.filter (fun a => !isAnsiSeq a)).flatten) ∧
    normalize_warning_line chunks.flatten =
      normalize_warning_line ((chunks.filter (fun a => !isAnsiSeq a)).flatten) ∧
    (warnSearch ((chunks.filter (fun a => !isAnsiSeq a)).flatten) = true →
      normalize_warning_line chunks.flatten ∈ extract_normalized_warnings [chunks.flatten]) := by
  have h1 := ansiStrip_chunks chunks h
  have hplain := plain_chunks_clean chunks h
  refine ⟨h1, by rw [h1], ?_, ?_⟩
  · unfold normalize_warning_line
    rw [h1, ansiStrip_clean hplain]
  · intro hw
    rw [mem_extract]
    exact ⟨chunks.flatten, List.mem_singleton.mpr rfl, by rw [h1]; exact hw, rfl⟩

/-- Witness for C10 at a concrete input: a diagnostic line with a color
sequence spliced between its location and the warning marker is still
classified and extracted. -/
theorem extract_unaffected_by_ansi_witness :
    ansiStrip (["a.c:1:2".toList, "\x1b[1m".toList, ": warning: x".toList]).flatten =
      ((["a.c:1:2".toList, "\x1b[1m".toList, ": warning: x".toList]).filter
        (fun a => !isAnsiSeq a)).flatten ∧
    warnSearch ((["a.c:1:2".toList, "\x1b[1m".toList, ": warning: x".toList]).filter
        (fun a => !isAnsiSeq a)).flatten = true ∧
    normalize_warning_line (["a.c:1:2".toList, "\x1b[1m".toList, ": warning: x".toList]).flatten ∈
      extract_normalized_warnings [(["a.c:1:2".toList, "\x1b[1m".toList,
        ": warning: x".toList]).flatten] := by
  have h := extract_unaffected_by_ansi
    ["a.c:1:2".toList, "\x1b[1m".toList, ": warning: x".toList] (by decide)
  exact ⟨h.1, by decide, h.2.2.2 (by decide)⟩

/-!
Normal-form computation of `normalize_warning_line` on well-formed diagnostic
lines (C8 and C9).  A well-formed diagnostic line is a path segment, a
`:line:col:` or `:line:` location, the single-space `warning:` marker, and a
message; the side conditions on path and message rule out the inputs on which
a second normalization pass differs from the first (doubled `./` prefixes,
stray escape characters, location-marker chains and uncollapsed whitespace).
-/

/-- No two adjacent whitespace characters. -/
def noDoubleWs : List Char → Bool
  | a :: b :: t => !(isPySpace a && isPySpace b) && noDoubleWs (b :: t)
  | _ => true

/-- No whitespace character immediately followed by "./": nothing for the
`(^|\s)\./` substitution to rewrite past position zero. -/
def noActiveDotSlash : List Char → Bool
  | a :: b :: c :: t => !(isPySpace a && b = '.' && c = '/') && noActiveDotSlash (b :: c :: t)
  | _ => true

/-- Characters that none of the scanners act on: not whitespace, not a
colon, not the escape character. -/
def plainChar (c : Char) : Bool :=
  !isPySpace c && !(c = ':') && !(c = escChar)

/-- Well-formed path segment: nonempty plain text not starting with "./". -/
def cleanSeg (p : List Char) : Bool :=
  !p.isEmpty && p.all plainChar && !(decide (p.take 2 = ['.', '/']))

/-- Nonempty all-digit location component. -/
def cleanDigits (ds : List Char) : Bool :=
  !ds.isEmpty && ds.all isDigitB

/-- Well-formed message: nonempty, free of colons and escape characters,
whitespace already collapsed (all spaces, none adjacent, none leading or
trailing), and no "./" after whitespace or at the start. -/
def cleanMsg (m : List Char) : Bool :=
  !m.isEmpty &&
  m.all (fun c => !(c = ':') && !(c = escChar) && (!isPySpace c || c = ' ')) &&
  !isPySpace (m.headD 'x') &&
  !isPySpace (m.reverse.headD 'x') &&
  noDoubleWs m &&
  noActiveDotSlash m &&
  !(decide (m.take 2 = ['.', '/']))

/-- The shared tail of both diagnostic shapes: a space, the lower-case
marker, a space, and the message. -/
def diagTail (m : List Char) : List Char :=
  ' ' :: ("warning:".toList ++ ' ' :: m)

/-- A gcc/clang-style diagnostic line `path:line:col: warning: message`. -/
def mkDiag (p ds es m : List Char) : List Char :=
  p ++ ':' :: (ds ++ ':' :: (es ++ ':' :: diagTail m))

/-- A make-style diagnostic line `path:line: warning: message`. -/
def mkDiagLine (p ds m : List Char) : List Char :=
  p ++ ':' :: (ds ++ ':' :: diagTail m)

/-!
Inert-segment lemmas: each scanner passes unchanged over characters it does
not act on.
-/

theorem takeWhile_eq_nil_of_head {p : Char → Bool} {ys : List Char}
    (h : ∀ c, ys.head? = some c → p c = false) : ys.takeWhile p = [] := by
  cases ys with
  | nil => rfl
  | cons c t => simp [List.takeWhile_cons, h c rfl]

theorem takeDrop_append {p : Char → Bool} {xs ys : List Char}
    (h : ∀ x ∈ xs, p x = true) (hy : ys.takeWhile p = []) :
    (xs ++ ys).takeWhile p = xs ∧ (xs ++ ys).dropWhile p = ys := by
  induction xs with
  | nil =>
    refine ⟨hy, ?_⟩
    cases ys with
    | nil => rfl
    | cons c t =>
      rw [List.takeWhile_cons] at hy
      by_cases hc : p c
      · simp [hc] at hy
      · simp [List.dropWhile_cons, hc]
  | cons a t ih =>
    have ha : p a = true := h a (List.mem_cons_self a t)
    have ht : ∀ x ∈ t, p x = true := fun x hx => h x (List.mem_cons_of_mem a hx)
    obtain ⟨ih1, ih2⟩ := ih ht
    constructor
    · simp [List.takeWhile_cons, ha, ih1]
    · simp [List.dropWhile_cons, ha, ih2]

theorem parseDigits1_append {ds r : List Char} (hds : cleanDigits ds = true)
    (hr : r.takeWhile isDigitB = []) :
    parseDigits1 (ds ++ r) = some (ds, r) := by
  unfold cleanDigits at hds
  rw [Bool.and_eq_true] at hds
  obtain ⟨hne, hall⟩ := hds
  have hall2 : ∀ x ∈ ds, isDigitB x = true := fun x hx => List.all_eq_true.mp hall x hx
  obtain ⟨h1, h2⟩ := takeDrop_append hall2 hr
  unfold parseDigits1
  rw [h1, h2]
  cases ds with
  | nil => simp at hne
  | cons a t => simp

theorem expectChar_cons_self (c : Char) (t : List Char) :
    expectChar c (c :: t) = some t := by
  simp [expectChar]

theorem collapseWs_cons (c : Char) (rest : List Char) :
    collapseWs (c :: rest) =
      if isPySpace c = true then
        (if isPySpace (rest.headD 'x') = true then collapseWs rest
         else ' ' :: collapseWs rest)
      else c :: collapseWs rest := by
  rw [collapseWs]

theorem collapseWs_cons_not_ws {c : Char} {rest : List Char}
    (h : isPySpace c = false) :
    collapseWs (c :: rest) = c :: collapseWs rest := by
  rw [collapseWs_cons, if_neg (by simp [h])]

theorem collapseWs_space_cons {rest : List Char}
    (h : isPySpace (rest.headD 'x') = false) :
    collapseWs (' ' :: rest) = ' ' :: collapseWs rest := by
  rw [collapseWs_cons, if_pos (by decide), if_neg (by rw [h]; simp)]

theorem collapseWs_plain_append {xs ys : List Char}
    (h : ∀ x ∈ xs, isPySpace x = false) :
    collapseWs (xs ++ ys) = xs ++ collapseWs ys := by
  induction xs with
  | nil => rfl
  | cons a t ih =>
    have ha := h a (List.mem_cons_self a t)
    have ht : ∀ x ∈ t, isPySpace x = false := fun x hx => h x (List.mem_cons_of_mem a hx)
    rw [List.cons_append, collapseWs_cons_not_ws ha, ih ht]
    rfl

theorem noDoubleWs_tail {a : Char} {t : List Char}
    (h : noDoubleWs (a :: t) = true) : noDoubleWs t = true := by
  cases t with
  | nil => rfl
  | cons b u =>
    unfold noDoubleWs at h
    rw [Bool.and_eq_true] at h
    exact h.2

theorem collapseWs_id {m : List Char} (hnd : noDoubleWs m = true)
    (hsp : ∀ c ∈ m, isPySpace c = true → c = ' ') : collapseWs m = m := by
  induction m with
  | nil => rfl
  | cons a t ih =>
    have ht : noDoubleWs t = true := noDoubleWs_tail hnd
    have hsp2 : ∀ c ∈ t, isPySpace c = true → c = ' ' :=
      fun c hc => hsp c (List.mem_cons_of_mem a hc)
    by_cases ha : isPySpace a
    · have ha' : a = ' ' := hsp a (List.mem_cons_self a t) ha
      have hnext : isPySpace (t.headD 'x') = false := by
        cases t with
        | nil => decide
        | cons b u =>
          unfold noDoubleWs at hnd
          rw [Bool.and_eq_true] at hnd
          have := hnd.1
          simp only [Bool.not_eq_true', Bool.and_eq_false_iff] at this
          rcases this with h1 | h1
          · rw [ha] at h1; simp at h1
          · simpa using h1
      rw [ha'] at ha ⊢
      rw [collapseWs_space_cons hnext, ih ht hsp2]
    · have ha' : isPySpace a = false := by simpa using ha
      rw [collapseWs_cons_not_ws ha', ih ht hsp2]

theorem headD_append_of_ne_nil {l r : List Char} {d : Char} (h : l ≠ []) :
    (l ++ r).headD d = l.headD d := by
  cases l with
  | nil => exact absurd rfl h
  | cons a t => rfl

theorem rstripWs_id {s : List Char} (h : isPySpace (s.reverse.headD 'x') = false) :
    rstripWs s = s := by
  unfold rstripWs
  cases hrev : s.reverse with
  | nil =>
    have : s = [] := by
      have := congrArg List.reverse hrev
      simpa using this
    simp [this]
  | cons a t =>
    rw [hrev] at h
    simp only [List.headD_cons] at h
    rw [List.dropWhile_cons, if_neg (by rw [h]; simp)]
    have := congrArg List.reverse hrev
    simpa using this.symm

theorem stripDotSlashAux_cons_not_ws {c : Char} {rest : List Char}
    (h : isPySpace c = false) :
    stripDotSlashAux (c :: rest) = c :: stripDotSlashAux rest := by
  match rest with
  | [] => rfl
  | [d] => rfl
  | d :: e :: u =>
    rw [stripDotSlashAux, if_neg (by simp [h])]

theorem stripDotSlashAux_ws_cons {c : Char} {rest : List Char}
    (h : rest.take 2 ≠ ['.', '/']) :
    stripDotSlashAux (c :: rest) = c :: stripDotSlashAux rest := by
  match rest with
  | [] => rfl
  | [d] => rfl
  | d :: e :: u =>
    have hde : ¬(d = '.' ∧ e = '/') := by
      intro ⟨h1, h2⟩
      exact h (by simp [h1, h2])
    rw [stripDotSlashAux, if_neg (by
      simp only [Bool.and_eq_true, decide_eq_true_eq, not_and, and_imp]
      intro _ h1 h2
      exact hde ⟨h1, h2⟩)]

theorem stripDotSlashAux_plain_append {xs ys : List Char}
    (h : ∀ x ∈ xs, isPySpace x = false) :
    stripDotSlashAux (xs ++ ys) = xs ++ stripDotSlashAux ys := by
  induction xs with
  | nil => rfl
  | cons a t ih =>
    have ha := h a (List.mem_cons_self a t)
    have ht : ∀ x ∈ t, isPySpace x = false := fun x hx => h x (List.mem_cons_of_mem a hx)
    rw [List.cons_append, stripDotSlashAux_cons_not_ws ha, ih ht]
    rfl

theorem noActiveDotSlash_tail {a : Char} {t : List Char}
    (h : noActiveDotSlash (a :: t) = true) : noActiveDotSlash t = true := by
  match t with
  | [] => rfl
  | [b] => rfl
  | b :: c :: u =>
    unfold noActiveDotSlash at h
    rw [Bool.and_eq_true] at h
    exact h.2

theorem stripDotSlashAux_id {m : List Char} (h : noActiveDotSlash m = true) :
    stripDotSlashAux m = m := by
  induction m with
  | nil => rfl
  | cons a t ih =>
    have ht := noActiveDotSlash_tail h
    by_cases ha : isPySpace a
    · have htake : t.take 2 ≠ ['.', '/'] := by
        match t with
        | [] => simp
        | [b] =>
          intro hx
          simp at hx
        | b :: c :: u =>
          unfold noActiveDotSlash at h
          rw [Bool.and_eq_true] at h
          have h1 := h.1
          simp only [Bool.not_eq_true', Bool.and_eq_false_iff] at h1
          intro hx
          simp only [List.take, List.cons.injEq] at hx
          rcases h1 with (h2 | h2) | h2
          · rw [ha] at h2; simp at h2
          · rw [hx.1] at h2; simp at h2
          · rw [hx.2.1] at h2; simp at h2
      rw [stripDotSlashAux_ws_cons htake, ih ht]
    · have ha' : isPySpace a = false := by simpa using ha
      rw [stripDotSlashAux_cons_not_ws ha', ih ht]

theorem tryColonLoc_not_colon {c : Char} {rest : List Char} (h : c ≠ ':') :
    tryColonLoc (c :: rest) = none := by
  unfold tryColonLoc
  simp [expectChar, h]

theorem parseDigits1_none {rest : List Char} (h : rest.takeWhile isDigitB = []) :
    parseDigits1 rest = none := by
  unfold parseDigits1
  rw [h]
  simp

theorem tryColonLoc_not_digit {rest : List Char}
    (h : rest.takeWhile isDigitB = []) :
    tryColonLoc (':' :: rest) = none := by
  unfold tryColonLoc
  rw [expectChar_cons_self, Option.some_bind, parseDigits1_none h, Option.none_bind]

theorem tryLineLoc_not_colon {c : Char} {rest : List Char} (h : c ≠ ':') :
    tryLineLoc (c :: rest) = none := by
  unfold tryLineLoc
  simp [expectChar, h]

theorem tryLineLoc_not_digit {rest : List Char}
    (h : rest.takeWhile isDigitB = []) :
    tryLineLoc (':' :: rest) = none := by
  unfold tryLineLoc
  rw [expectChar_cons_self, Option.some_bind, parseDigits1_none h, Option.none_bind]

theorem colonSubGo_none_cons {c : Char} {rest : List Char}
    (h : tryColonLoc (c :: rest) = none) :
    colonSubGo 0 (c :: rest) = c :: colonSubGo 0 rest := by
  rw [colonSubGo, h]

theorem lineSubGo_none_cons {c : Char} {rest : List Char}
    (h : tryLineLoc (c :: rest) = none) :
    lineSubGo 0 (c :: rest) = c :: lineSubGo 0 rest := by
  rw [lineSubGo, h]

theorem colonSubGo_plain_append {xs ys : List Char}
    (h : ∀ x ∈ xs, ¬(x = ':')) :
    colonSubGo 0 (xs ++ ys) = xs ++ colonSubGo 0 ys := by
  induction xs with
  | nil => rfl
  | cons a t ih =>
    have ha := h a (List.mem_cons_self a t)
    have ht : ∀ x ∈ t, ¬(x = ':') := fun x hx => h x (List.mem_cons_of_mem a hx)
    rw [List.cons_append, colonSubGo_none_cons (tryColonLoc_not_colon ha), ih ht]
    rfl

theorem lineSubGo_plain_append {xs ys : List Char}
    (h : ∀ x ∈ xs, ¬(x = ':')) :
    lineSubGo 0 (xs ++ ys) = xs ++ lineSubGo 0 ys := by
  induction xs with
  | nil => rfl
  | cons a t ih =>
    have ha := h a (List.mem_cons_self a t)
    have ht : ∀ x ∈ t, ¬(x = ':') := fun x hx => h x (List.mem_cons_of_mem a hx)
    rw [List.cons_append, lineSubGo_none_cons (tryLineLoc_not_colon ha), ih ht]
    rfl

theorem colonSubGo_id {m : List Char} (h : ∀ x ∈ m, ¬(x = ':')) :
    colonSubGo 0 m = m := by
  have h0 : colonSubGo 0 ([] : List Char) = [] := rfl
  simpa [h0] using @colonSubGo_plain_append m [] h

theorem lineSubGo_id {m : List Char} (h : ∀ x ∈ m, ¬(x = ':')) :
    lineSubGo 0 m = m := by
  have h0 : lineSubGo 0 ([] : List Char) = [] := rfl
  simpa [h0] using @lineSubGo_plain_append m [] h

theorem colonSubGo_skip (n : Nat) (s : List Char) :
    colonSubGo n s = colonSubGo 0 (s.drop n) := by
  induction n generalizing s with
  | zero => simp
  | succ k ih =>
    cases s with
    | nil => rfl
    | cons a t =>
      rw [List.drop_succ_cons]
      exact (ih t)

theorem lineSubGo_skip (n : Nat) (s : List Char) :
    lineSubGo n s = lineSubGo 0 (s.drop n) := by
  induction n generalizing s with
  | zero => simp
  | succ k ih =>
    cases s with
    | nil => rfl
    | cons a t =>
      rw [List.drop_succ_cons]
      exact (ih t)

/-!
Character-class facts and extraction of the cleanliness hypotheses.
-/

theorem digit_facts {c : Char} (h : isDigitB c = true) :
    isPySpace c = false ∧ c ≠ ':' ∧ c ≠ escChar := by
  simp only [isDigitB, Bool.and_eq_true, decide_eq_true_eq] at h
  obtain ⟨h1, h2⟩ := h
  refine ⟨?_, ?_, ?_⟩
  · by_contra hws
    rw [Bool.not_eq_false] at hws
    simp only [isPySpace, Bool.or_eq_true, decide_eq_true_eq] at hws
    rcases hws with ((((((((((hx | hx) | hx) | hx) | hx) | hx) | hx) | hx) | hx) | hx) | hx) | hx <;>
      subst hx <;>
      first
        | exact absurd h1 (by decide)
        | exact absurd h2 (by decide)
  · rintro rfl; exact absurd h2 (by decide)
  · rintro rfl; exact absurd h1 (by decide)

theorem plainChar_facts {c : Char} (h : plainChar c = true) :
    isPySpace c = false ∧ c ≠ ':' ∧ c ≠ escChar := by
  simp only [plainChar, Bool.and_eq_true, Bool.not_eq_true', decide_eq_false_iff_not] at h
  exact ⟨h.1.1, h.1.2, h.2⟩

theorem ne_nil_of_isEmpty_false {l : List Char} (h : l.isEmpty = false) : l ≠ [] := by
  intro hnil
  subst hnil
  simp at h

theorem cleanSeg_facts {p : List Char} (h : cleanSeg p = true) :
    p ≠ [] ∧ (∀ c ∈ p, plainChar c = true) ∧ p.take 2 ≠ ['.', '/'] := by
  simp only [cleanSeg, Bool.and_eq_true, Bool.not_eq_true',
    decide_eq_false_iff_not, List.all_eq_true] at h
  exact ⟨ne_nil_of_isEmpty_false h.1.1, h.1.2, h.2⟩

theorem cleanDigits_facts {d : List Char} (h : cleanDigits d = true) :
    d ≠ [] ∧ ∀ c ∈ d, isDigitB c = true := by
  simp only [cleanDigits, Bool.and_eq_true, Bool.not_eq_true',
    List.all_eq_true] at h
  exact ⟨ne_nil_of_isEmpty_false h.1, h.2⟩

theorem cleanMsg_facts {m : List Char} (h : cleanMsg m = true) :
    m ≠ [] ∧
    (∀ c ∈ m, ¬(c = ':') ∧ c ≠ escChar ∧ (isPySpace c = true → c = ' ')) ∧
    isPySpace (m.headD 'x') = false ∧
    isPySpace (m.reverse.headD 'x') = false ∧
    noDoubleWs m = true ∧
    noActiveDotSlash m = true ∧
    m.take 2 ≠ ['.', '/'] := by
  simp only [cleanMsg, Bool.and_eq_true, Bool.not_eq_true',
    decide_eq_false_iff_not, List.all_eq_true] at h
  obtain ⟨⟨⟨⟨⟨⟨h1, h2⟩, h3⟩, h4⟩, h5⟩, h6⟩, h7⟩ := h
  refine ⟨ne_nil_of_isEmpty_false h1, ?_, h3, h4, h5, h6, h7⟩
  intro c hc
  have := h2 c hc
  simp only [Bool.and_eq_true, Bool.not_eq_true', decide_eq_false_iff_not,
    Bool.or_eq_true, Bool.not_eq_true', decide_eq_true_eq] at this
  obtain ⟨⟨hc1, hc2⟩, hc3⟩ := this
  refine ⟨hc1, hc2, ?_⟩
  intro hws
  rcases hc3 with hc3 | hc3
  · rw [hws] at hc3; simp at hc3
  · exact hc3

/-!
Positions at which neither location pattern can match: no colon immediately
followed by a digit.
-/

/-- No colon immediately followed by a digit anywhere in the string. -/
def noColonDigit : List Char → Bool
  | a :: b :: t => !(a = ':' && isDigitB b) && noColonDigit (b :: t)
  | _ => true

theorem noColonDigit_tail {a : Char} {t : List Char}
    (h : noColonDigit (a :: t) = true) : noColonDigit t = true := by
  cases t with
  | nil => rfl
  | cons b u =>
    unfold noColonDigit at h
    rw [Bool.and_eq_true] at h
    exact h.2

theorem noColonDigit_head {a : Char} {t : List Char}
    (h : noColonDigit (a :: t) = true) (ha : a = ':') :
    isDigitB (t.headD 'x') = false := by
  cases t with
  | nil => decide
  | cons b u =>
    unfold noColonDigit at h
    rw [Bool.and_eq_true] at h
    have := h.1
    simp only [Bool.not_eq_true', Bool.and_eq_false_iff] at this
    rcases this with h1 | h1
    · rw [ha] at h1; simp at h1
    · simpa using h1

theorem takeWhile_digits_nil {t : List Char} (h : isDigitB (t.headD 'x') = false) :
    t.takeWhile isDigitB = [] := by
  cases t with
  | nil => rfl
  | cons b u =>
    simp only [List.headD_cons] at h
    simp [List.takeWhile_cons, h]

theorem colonSubGo_id_noColonDigit {s : List Char} (h : noColonDigit s = true) :
    colonSubGo 0 s = s := by
  induction s with
  | nil => rfl
  | cons a t ih =>
    have ht := noColonDigit_tail h
    by_cases ha : a = ':'
    · subst ha
      rw [colonSubGo_none_cons (tryColonLoc_not_digit
        (takeWhile_digits_nil (noColonDigit_head h rfl))), ih ht]
    · rw [colonSubGo_none_cons (tryColonLoc_not_colon ha), ih ht]

theorem lineSubGo_id_noColonDigit {s : List Char} (h : noColonDigit s = true) :
    lineSubGo 0 s = s := by
  induction s with
  | nil => rfl
  | cons a t ih =>
    have ht := noColonDigit_tail h
    by_cases ha : a = ':'
    · subst ha
      rw [lineSubGo_none_cons (tryLineLoc_not_digit
        (takeWhile_digits_nil (noColonDigit_head h rfl))), ih ht]
    · rw [lineSubGo_none_cons (tryLineLoc_not_colon ha), ih ht]

theorem reverse_headD_cons {a : Char} {t : List Char} {d : Char} (h : t ≠ []) :
    ((a :: t).reverse).headD d = (t.reverse).headD d := by
  rw [List.reverse_cons]
  exact headD_append_of_ne_nil (by simpa using h)

theorem noColonDigit_of_no_colon {m : List Char} (h : ∀ c ∈ m, ¬(c = ':')) :
    noColonDigit m = true := by
  induction m with
  | nil => rfl
  | cons a t ih =>
    have ha := h a (List.mem_cons_self a t)
    have ht : ∀ c ∈ t, ¬(c = ':') := fun c hc => h c (List.mem_cons_of_mem a hc)
    cases t with
    | nil => rfl
    | cons b u =>
      unfold noColonDigit
      rw [Bool.and_eq_true]
      exact ⟨by simp [ha], ih ht⟩

theorem noColonDigit_append {x m : List Char}
    (hx : noColonDigit x = true)
    (hlast : x.reverse.headD 'x' = ':' → isDigitB (m.headD 'x') = false)
    (hm : ∀ c ∈ m, ¬(c = ':')) :
    noColonDigit (x ++ m) = true := by
  induction x with
  | nil => exact noColonDigit_of_no_colon hm
  | cons a t ih =>
    cases t with
    | nil =>
      cases m with
      | nil => rfl
      | cons b u =>
        rw [List.singleton_append]
        unfold noColonDigit
        rw [Bool.and_eq_true]
        refine ⟨?_, noColonDigit_of_no_colon hm⟩
        by_cases ha : a = ':'
        · have := hlast (by simp [ha])
          simp only [List.headD_cons] at this
          simp [this]
        · simp [ha]
    | cons b u =>
      have hstep : noColonDigit (b :: u ++ m) = true := by
        apply ih (noColonDigit_tail hx)
        intro hl
        apply hlast
        rw [reverse_headD_cons (by simp)]
        exact hl
      unfold noColonDigit at hx
      rw [Bool.and_eq_true] at hx
      simp only [List.cons_append]
      unfold noColonDigit
      rw [Bool.and_eq_true]
      refine ⟨hx.1, ?_⟩
      simpa using hstep

/-!
Computation of the location-pattern matches at the marker of a well-formed
diagnostic line.
-/

theorem parseWarnGroup_marker (m : List Char) :
    parseWarnGroup (':' :: ' ' :: ("warning:".toList ++ ' ' :: m)) =
      some (": warning:".toList, ' ' :: m) := rfl

theorem tryColonLoc_marker {ds es m : List Char}
    (hds : cleanDigits ds = true) (hes : cleanDigits es = true) :
    tryColonLoc (':' :: (ds ++ ':' :: (es ++ ':' :: diagTail m))) =
      some (": warning:".toList, ' ' :: m) := by
  unfold diagTail
  have ht1 : (':' :: (es ++ ':' :: ' ' :: ("warning:".toList ++ ' ' :: m))).takeWhile
      isDigitB = [] := rfl
  have ht2 : (':' :: ' ' :: ("warning:".toList ++ ' ' :: m)).takeWhile isDigitB = [] := rfl
  unfold tryColonLoc
  rw [expectChar_cons_self, Option.some_bind]
  rw [parseDigits1_append hds ht1, Option.some_bind]
  rw [expectChar_cons_self, Option.some_bind]
  rw [parseDigits1_append hes ht2, Option.some_bind]
  exact parseWarnGroup_marker m

theorem tryLineLoc_marker {ds m : List Char} (hds : cleanDigits ds = true) :
    tryLineLoc (':' :: (ds ++ ':' :: diagTail m)) =
      some (": warning:".toList, ' ' :: m) := by
  unfold diagTail
  have ht2 : (':' :: ' ' :: ("warning:".toList ++ ' ' :: m)).takeWhile isDigitB = [] := rfl
  unfold tryLineLoc
  rw [expectChar_cons_self, Option.some_bind]
  rw [parseDigits1_append hds ht2, Option.some_bind]
  exact parseWarnGroup_marker m

theorem tryColonLoc_ds_fail {ds rest : List Char} (hds : cleanDigits ds = true)
    (hrest : isDigitB (rest.headD 'x') = false) :
    tryColonLoc (':' :: (ds ++ ':' :: rest)) = none := by
  have ht1 : (':' :: rest).takeWhile isDigitB = [] := rfl
  unfold tryColonLoc
  rw [expectChar_cons_self, Option.some_bind]
  rw [parseDigits1_append hds ht1, Option.some_bind]
  rw [expectChar_cons_self, Option.some_bind]
  rw [parseDigits1_none (takeWhile_digits_nil hrest), Option.none_bind]

theorem colonSubGo_match_cons {c : Char} {rest g r : List Char}
    (h : tryColonLoc (c :: rest) = some (g, r)) :
    colonSubGo 0 (c :: rest) =
      ":LINE:COL".toList ++ g ++ colonSubGo (rest.length - r.length) rest := by
  rw [colonSubGo, h]

theorem lineSubGo_match_cons {c : Char} {rest g r : List Char}
    (h : tryLineLoc (c :: rest) = some (g, r)) :
    lineSubGo 0 (c :: rest) =
      ":LINE".toList ++ g ++ lineSubGo (rest.length - r.length) rest := by
  rw [lineSubGo, h]

theorem take2_append_ne {p R : List Char} (hne : p ≠ []) (h2 : p.take 2 ≠ ['.', '/']) :
    (p ++ ':' :: R).take 2 ≠ ['.', '/'] := by
  match p with
  | [] => exact absurd rfl hne
  | [c] =>
    intro hx
    simp at hx
  | c :: d :: t =>
    intro hx
    apply h2
    simpa using hx

theorem reverse_headD_append {A B : List Char} (hB : B ≠ []) (d : Char) :
    ((A ++ B).reverse).headD d = B.reverse.headD d := by
  rw [List.reverse_append]
  exact headD_append_of_ne_nil (by simpa using hB)

theorem collapseWs_diagTail {m : List Char}
    (hmh : isPySpace (m.headD 'x') = false) (hnd : noDoubleWs m = true)
    (hsp : ∀ c ∈ m, isPySpace c = true → c = ' ') :
    collapseWs (diagTail m) = diagTail m := by
  have hw : isPySpace (("warning:".toList ++ ' ' :: m).headD 'x') = false := rfl
  unfold diagTail
  rw [collapseWs_space_cons hw, collapseWs_plain_append (by decide),
    collapseWs_space_cons hmh, collapseWs_id hnd hsp]

theorem stripDotSlashAux_diagTail {m : List Char}
    (hna : noActiveDotSlash m = true) (htk : m.take 2 ≠ ['.', '/']) :
    stripDotSlashAux (diagTail m) = diagTail m := by
  unfold diagTail
  rw [stripDotSlashAux_ws_cons (by
        rw [show ("warning:".toList ++ ' ' :: m).take 2 = ['w', 'a'] from rfl]
        decide),
    stripDotSlashAux_plain_append (by decide),
    stripDotSlashAux_ws_cons htk, stripDotSlashAux_id hna]

theorem colonSubGo_diagTail {m : List Char} (hmcol : ∀ c ∈ m, ¬(c = ':')) :
    colonSubGo 0 (diagTail m) = diagTail m := by
  have hsh : diagTail m = " warning: ".toList ++ m := rfl
  rw [hsh]
  exact colonSubGo_id_noColonDigit (noColonDigit_append (by decide)
    (fun hl => absurd hl (by decide)) hmcol)

theorem lineSubGo_diagTail {m : List Char} (hmcol : ∀ c ∈ m, ¬(c = ':')) :
    lineSubGo 0 (diagTail m) = diagTail m := by
  have hsh : diagTail m = " warning: ".toList ++ m := rfl
  rw [hsh]
  exact lineSubGo_id_noColonDigit (noColonDigit_append (by decide)
    (fun hl => absurd hl (by decide)) hmcol)

/-- Normal form of `normalize_warning_line` on a well-formed gcc/clang-style
diagnostic line: the line and the column are both replaced, the column by the
column placeholder (never by a second line placeholder), and everything else
is untouched. -/
theorem normalize_mkDiag {p ds es m : List Char}
    (hp : cleanSeg p = true) (hds : cleanDigits ds = true)
    (hes : cleanDigits es = true) (hm : cleanMsg m = true) :
    normalize_warning_line (mkDiag p ds es m) =
      p ++ (":LINE:COL: warning: ".toList ++ m) := by
  obtain ⟨hpne, hpall, hptake⟩ := cleanSeg_facts hp
  obtain ⟨hdsne, hdsall⟩ := cleanDigits_facts hds
  obtain ⟨hesne, hesall⟩ := cleanDigits_facts hes
  obtain ⟨hmne, hmall, hmhead, hmlast, hmnd, hmna, hmtake⟩ := cleanMsg_facts hm
  have hpws : ∀ c ∈ p, isPySpace c = false := fun c hc => (plainChar_facts (hpall c hc)).1
  have hpcol : ∀ c ∈ p, ¬(c = ':') := fun c hc => (plainChar_facts (hpall c hc)).2.1
  have hpesc : ∀ c ∈ p, c ≠ escChar := fun c hc => (plainChar_facts (hpall c hc)).2.2
  have hdsws : ∀ c ∈ ds, isPySpace c = false := fun c hc => (digit_facts (hdsall c hc)).1
  have hdsesc : ∀ c ∈ ds, c ≠ escChar := fun c hc => (digit_facts (hdsall c hc)).2.2
  have hesws : ∀ c ∈ es, isPySpace c = false := fun c hc => (digit_facts (hesall c hc)).1
  have hesesc : ∀ c ∈ es, c ≠ escChar := fun c hc => (digit_facts (hesall c hc)).2.2
  have hmesc : ∀ c ∈ m, c ≠ escChar := fun c hc => (hmall c hc).2.1
  have hmcol : ∀ c ∈ m, ¬(c = ':') := fun c hc => (hmall c hc).1
  have hmsp : ∀ c ∈ m, isPySpace c = true → c = ' ' := fun c hc => (hmall c hc).2.2
  have hstrip : ansiStrip (mkDiag p ds es m) = mkDiag p ds es m := by
    apply ansiStrip_clean
    unfold mkDiag diagTail
    simp only [List.forall_mem_append, List.forall_mem_cons]
    exact ⟨hpesc, by decide, hdsesc, by decide, hesesc, by decide, by decide,
      by decide, by decide, hmesc⟩
  have hcol : collapseWs (mkDiag p ds es m) = mkDiag p ds es m := by
    unfold mkDiag
    rw [collapseWs_plain_append hpws, collapseWs_cons_not_ws (by decide),
      collapseWs_plain_append hdsws, collapseWs_cons_not_ws (by decide),
      collapseWs_plain_append hesws, collapseWs_cons_not_ws (by decide),
      collapseWs_diagTail hmhead hmnd hmsp]
  have hrs : rstripWs (mkDiag p ds es m) = mkDiag p ds es m := by
    apply rstripWs_id
    unfold mkDiag diagTail
    rw [reverse_headD_append (by simp), reverse_headD_cons (by simp),
      reverse_headD_append (by simp), reverse_headD_cons (by simp),
      reverse_headD_append (by simp), reverse_headD_cons (by simp),
      reverse_headD_cons (by simp), reverse_headD_append (by simp),
      reverse_headD_cons hmne]
    exact hmlast
  have htk : (mkDiag p ds es m).take 2 ≠ ['.', '/'] := by
    unfold mkDiag
    exact take2_append_ne hpne hptake
  have hdsl : stripDotSlash (mkDiag p ds es m) = mkDiag p ds es m := by
    unfold stripDotSlash
    rw [if_neg htk]
    unfold mkDiag
    rw [stripDotSlashAux_plain_append hpws, stripDotSlashAux_cons_not_ws (by decide),
      stripDotSlashAux_plain_append hdsws, stripDotSlashAux_cons_not_ws (by decide),
      stripDotSlashAux_plain_append hesws, stripDotSlashAux_cons_not_ws (by decide),
      stripDotSlashAux_diagTail hmna hmtake]
  have hcs : colonSub (mkDiag p ds es m) =
      p ++ (":LINE:COL".toList ++ (": warning:".toList ++ (' ' :: m))) := by
    unfold colonSub mkDiag
    rw [colonSubGo_plain_append hpcol,
      colonSubGo_match_cons (tryColonLoc_marker hds hes)]
    rw [colonSubGo_skip]
    have hre : ds ++ ':' :: (es ++ ':' :: diagTail m) =
        (ds ++ ':' :: (es ++ ':' :: ' ' :: "warning:".toList)) ++ (' ' :: m) := by
      unfold diagTail
      simp [List.append_assoc]
    have hlen : (ds ++ ':' :: (es ++ ':' :: diagTail m)).length - (' ' :: m).length =
        (ds ++ ':' :: (es ++ ':' :: ' ' :: "warning:".toList)).length := by
      rw [hre]
      simp only [List.length_append, List.length_cons]
      omega
    rw [hlen, hre, List.drop_left]
    rw [colonSubGo_none_cons (tryColonLoc_not_colon (by decide)),
      colonSubGo_id hmcol]
    simp [List.append_assoc]
  have hxl : ":LINE:COL".toList ++ (": warning:".toList ++ (' ' :: m)) =
      ":LINE:COL: warning: ".toList ++ m := rfl
  have hls : lineSub (p ++ (":LINE:COL: warning: ".toList ++ m)) =
      p ++ (":LINE:COL: warning: ".toList ++ m) := by
    unfold lineSub
    rw [lineSubGo_plain_append hpcol]
    rw [lineSubGo_id_noColonDigit (noColonDigit_append (by decide)
      (fun hl => absurd hl (by decide)) hmcol)]
  unfold normalize_warning_line
  rw [hstrip, hcol, hrs, hdsl, hcs, hxl, hls]

/-- Normal form of `normalize_warning_line` on a well-formed make-style
diagnostic line `path:line: warning: message`: only the line number is
replaced, by the line placeholder. -/
theorem normalize_mkDiagLine {p ds m : List Char}
    (hp : cleanSeg p = true) (hds : cleanDigits ds = true)
    (hm : cleanMsg m = true) :
    normalize_warning_line (mkDiagLine p ds m) =
      p ++ (":LINE: warning: ".toList ++ m) := by
  obtain ⟨hpne, hpall, hptake⟩ := cleanSeg_facts hp
  obtain ⟨hdsne, hdsall⟩ := cleanDigits_facts hds
  obtain ⟨hmne, hmall, hmhead, hmlast, hmnd, hmna, hmtake⟩ := cleanMsg_facts hm
  have hpws : ∀ c ∈ p, isPySpace c = false := fun c hc => (plainChar_facts (hpall c hc)).1
  have hpcol : ∀ c ∈ p, ¬(c = ':') := fun c hc => (plainChar_facts (hpall c hc)).2.1
  have hpesc : ∀ c ∈ p, c ≠ escChar := fun c hc => (plainChar_facts (hpall c hc)).2.2
  have hdsws : ∀ c ∈ ds, isPySpace c = false := fun c hc => (digit_facts (hdsall c hc)).1
  have hdscol : ∀ c ∈ ds, ¬(c = ':') := fun c hc => (digit_facts (hdsall c hc)).2.1
  have hdsesc : ∀ c ∈ ds, c ≠ escChar := fun c hc => (digit_facts (hdsall c hc)).2.2
  have hmesc : ∀ c ∈ m, c ≠ escChar := fun c hc => (hmall c hc).2.1
  have hmcol : ∀ c ∈ m, ¬(c = ':') := fun c hc => (hmall c hc).1
  have hmsp : ∀ c ∈ m, isPySpace c = true → c = ' ' := fun c hc => (hmall c hc).2.2
  have hstrip : ansiStrip (mkDiagLine p ds m) = mkDiagLine p ds m := by
    apply ansiStrip_clean
    unfold mkDiagLine diagTail
    simp only [List.forall_mem_append, List.forall_mem_cons]
    exact ⟨hpesc, by decide, hdsesc, by decide, by decide, by decide,
      by decide, hmesc⟩
  have hcol : collapseWs (mkDiagLine p ds m) = mkDiagLine p ds m := by
    unfold mkDiagLine
    rw [collapseWs_plain_append hpws, collapseWs_cons_not_ws (by decide),
      collapseWs_plain_append hdsws, collapseWs_cons_not_ws (by decide),
      collapseWs_diagTail hmhead hmnd hmsp]
  have hrs : rstripWs (mkDiagLine p ds m) = mkDiagLine p ds m := by
    apply rstripWs_id
    unfold mkDiagLine diagTail
    rw [reverse_headD_append (by simp), reverse_headD_cons (by simp),
      reverse_headD_append (by simp), reverse_headD_cons (by simp),
      reverse_headD_cons (by simp), reverse_headD_append (by simp),
      reverse_headD_cons hmne]
    exact hmlast
  have htk : (mkDiagLine p ds m).take 2 ≠ ['.', '/'] := by
    unfold mkDiagLine
    exact take2_append_ne hpne hptake
  have hdsl : stripDotSlash (mkDiagLine p ds m) = mkDiagLine p ds m := by
    unfold stripDotSlash
    rw [if_neg htk]
    unfold mkDiagLine
    rw [stripDotSlashAux_plain_append hpws, stripDotSlashAux_cons_not_ws (by decide),
      stripDotSlashAux_plain_append hdsws, stripDotSlashAux_cons_not_ws (by decide),
      stripDotSlashAux_diagTail hmna hmtake]
  have hcs : colonSub (mkDiagLine p ds m) = mkDiagLine p ds m := by
    have hdg : isDigitB ((diagTail m).headD 'x') = false := rfl
    have htw : (diagTail m).takeWhile isDigitB = [] := rfl
    unfold colonSub mkDiagLine
    rw [colonSubGo_plain_append hpcol,
      colonSubGo_none_cons (tryColonLoc_ds_fail hds hdg),
      colonSubGo_plain_append hdscol,
      colonSubGo_none_cons (tryColonLoc_not_digit htw),
      colonSubGo_diagTail hmcol]
  have hls : lineSub (mkDiagLine p ds m) =
      p ++ (":LINE: warning: ".toList ++ m) := by
    unfold lineSub mkDiagLine
    rw [lineSubGo_plain_append hpcol,
      lineSubGo_match_cons (tryLineLoc_marker hds)]
    rw [lineSubGo_skip]
    have hre : ds ++ ':' :: diagTail m =
        (ds ++ ':' :: ' ' :: "warning:".toList) ++ (' ' :: m) := by
      unfold diagTail
      simp [List.append_assoc]
    have hlen : (ds ++ ':' :: diagTail m).length - (' ' :: m).length =
        (ds ++ ':' :: ' ' :: "warning:".toList).length := by
      rw [hre]
      simp only [List.length_append, List.length_cons]
      omega
    rw [hlen, hre, List.drop_left]
    rw [lineSubGo_none_cons (tryLineLoc_not_colon (by decide)),
      lineSubGo_id hmcol]
    simp [List.append_assoc]
  unfold normalize_warning_line
  rw [hstrip, hcol, hrs, hdsl, hcs, hls]

/-- `normalize_warning_line` fixes the colon-form normal form
`p ++ ":LINE:COL: warning: " ++ m`. -/
theorem normalize_nf_colon {p m : List Char}
    (hp : cleanSeg p = true) (hm : cleanMsg m = true) :
    normalize_warning_line (p ++ (":LINE:COL: warning: ".toList ++ m)) =
      p ++ (":LINE:COL: warning: ".toList ++ m) := by
  obtain ⟨hpne, hpall, hptake⟩ := cleanSeg_facts hp
  obtain ⟨hmne, hmall, hmhead, hmlast, hmnd, hmna, hmtake⟩ := cleanMsg_facts hm
  have hpws : ∀ c ∈ p, isPySpace c = false := fun c hc => (plainChar_facts (hpall c hc)).1
  have hpcol : ∀ c ∈ p, ¬(c = ':') := fun c hc => (plainChar_facts (hpall c hc)).2.1
  have hpesc : ∀ c ∈ p, c ≠ escChar := fun c hc => (plainChar_facts (hpall c hc)).2.2
  have hmesc : ∀ c ∈ m, c ≠ escChar := fun c hc => (hmall c hc).2.1
  have hmcol : ∀ c ∈ m, ¬(c = ':') := fun c hc => (hmall c hc).1
  have hmsp : ∀ c ∈ m, isPySpace c = true → c = ' ' := fun c hc => (hmall c hc).2.2
  have hx : ":LINE:COL: warning: ".toList ++ m =
      ':' :: ("LINE".toList ++ ':' :: ("COL".toList ++ ':' :: diagTail m)) := rfl
  have hstrip : ansiStrip (p ++ (":LINE:COL: warning: ".toList ++ m)) =
      p ++ (":LINE:COL: warning: ".toList ++ m) := by
    apply ansiStrip_clean
    simp only [List.forall_mem_append]
    exact ⟨hpesc, by decide, hmesc⟩
  have hcol : collapseWs (p ++ (":LINE:COL: warning: ".toList ++ m)) =
      p ++ (":LINE:COL: warning: ".toList ++ m) := by
    rw [hx]
    rw [collapseWs_plain_append hpws, collapseWs_cons_not_ws (by decide),
      collapseWs_plain_append (by decide), collapseWs_cons_not_ws (by decide),
      collapseWs_plain_append (by decide), collapseWs_cons_not_ws (by decide),
      collapseWs_diagTail hmhead hmnd hmsp]
  have hrs : rstripWs (p ++ (":LINE:COL: warning: ".toList ++ m)) =
      p ++ (":LINE:COL: warning: ".toList ++ m) := by
    apply rstripWs_id
    rw [hx]
    unfold diagTail
    rw [reverse_headD_append (by simp), reverse_headD_cons (by simp),
      reverse_headD_append (by simp), reverse_headD_cons (by simp),
      reverse_headD_append (by simp), reverse_headD_cons (by simp),
      reverse_headD_cons (by simp), reverse_headD_append (by simp),
      reverse_headD_cons hmne]
    exact hmlast
  have htk : (p ++ (":LINE:COL: warning: ".toList ++ m)).take 2 ≠ ['.', '/'] := by
    rw [hx]
    exact take2_append_ne hpne hptake
  have hdsl : stripDotSlash (p ++ (":LINE:COL: warning: ".toList ++ m)) =
      p ++ (":LINE:COL: warning: ".toList ++ m) := by
    unfold stripDotSlash
    rw [if_neg htk]
    rw [hx]
    rw [stripDotSlashAux_plain_append hpws, stripDotSlashAux_cons_not_ws (by decide),
      stripDotSlashAux_plain_append (by decide), stripDotSlashAux_cons_not_ws (by decide),
      stripDotSlashAux_plain_append (by decide), stripDotSlashAux_cons_not_ws (by decide),
      stripDotSlashAux_diagTail hmna hmtake]
  have hcsid : colonSub (p ++ (":LINE:COL: warning: ".toList ++ m)) =
      p ++ (":LINE:COL: warning: ".toList ++ m) := by
    unfold colonSub
    rw [colonSubGo_plain_append hpcol,
      colonSubGo_id_noColonDigit (noColonDigit_append (by decide)
        (fun hl => absurd hl (by decide)) hmcol)]
  have hlsid : lineSub (p ++ (":LINE:COL: warning: ".toList ++ m)) =
      p ++ (":LINE:COL: warning: ".toList ++ m) := by
    unfold lineSub
    rw [lineSubGo_plain_append hpcol,
      lineSubGo_id_noColonDigit (noColonDigit_append (by decide)
        (fun hl => absurd hl (by decide)) hmcol)]
  unfold normalize_warning_line
  rw [hstrip, hcol, hrs, hdsl, hcsid, hlsid]

/-- `normalize_warning_line` fixes the line-form normal form
`p ++ ":LINE: warning: " ++ m`. -/
theorem normalize_nf_line {p m : List Char}
    (hp : cleanSeg p = true) (hm : cleanMsg m = true) :
    normalize_warning_line (p ++ (":LINE: warning: ".toList ++ m)) =
      p ++ (":LINE: warning: ".toList ++ m) := by
  obtain ⟨hpne, hpall, hptake⟩ := cleanSeg_facts hp
  obtain ⟨hmne, hmall, hmhead, hmlast, hmnd, hmna, hmtake⟩ := cleanMsg_facts hm
  have hpws : ∀ c ∈ p, isPySpace c = false := fun c hc => (plainChar_facts (hpall c hc)).1
  have hpcol : ∀ c ∈ p, ¬(c = ':') := fun c hc => (plainChar_facts (hpall c hc)).2.1
  have hpesc : ∀ c ∈ p, c ≠ escChar := fun c hc => (plainChar_facts (hpall c hc)).2.2
  have hmesc : ∀ c ∈ m, c ≠ escChar := fun c hc => (hmall c hc).2.1
  have hmcol : ∀ c ∈ m, ¬(c = ':') := fun c hc => (hmall c hc).1
  have hmsp : ∀ c ∈ m, isPySpace c = true → c = ' ' := fun c hc => (hmall c hc).2.2
  have hx : ":LINE: warning: ".toList ++ m =
      ':' :: ("LINE".toList ++ ':' :: diagTail m) := rfl
  have hstrip : ansiStrip (p ++ (":LINE: warning: ".toList ++ m)) =
      p ++ (":LINE: warning: ".toList ++ m) := by
    apply ansiStrip_clean
    simp only [List.forall_mem_append]
    exact ⟨hpesc, by decide, hmesc⟩
  have hcol : collapseWs (p ++ (":LINE: warning: ".toList ++ m)) =
      p ++ (":LINE: warning: ".toList ++ m) := by
    rw [hx]
    rw [collapseWs_plain_append hpws, collapseWs_cons_not_ws (by decide),
      collapseWs_plain_append (by decide), collapseWs_cons_not_ws (by decide),
      collapseWs_diagTail hmhead hmnd hmsp]
  have hrs : rstripWs (p ++ (":LINE: warning: ".toList ++ m)) =
      p ++ (":LINE: warning: ".toList ++ m) := by
    apply rstripWs_id
    rw [hx]
    unfold diagTail
    rw [reverse_headD_append (by simp), reverse_headD_cons (by simp),
      reverse_headD_append (by simp), reverse_headD_cons (by simp),
      reverse_headD_cons (by simp), reverse_headD_append (by simp),
      reverse_headD_cons hmne]
    exact hmlast
  have htk : (p ++ (":LINE: warning: ".toList ++ m)).take 2 ≠ ['.', '/'] := by
    rw [hx]
    exact take2_append_ne hpne hptake
  have hdsl : stripDotSlash (p ++ (":LINE: warning: ".toList ++ m)) =
      p ++ (":LINE: warning: ".toList ++ m) := by
    unfold stripDotSlash
    rw [if_neg htk]
    rw [hx]
    rw [stripDotSlashAux_plain_append hpws, stripDotSlashAux_cons_not_ws (by decide),
      stripDotSlashAux_plain_append (by decide), stripDotSlashAux_cons_not_ws (by decide),
      stripDotSlashAux_diagTail hmna hmtake]
  have hcsid : colonSub (p ++ (":LINE: warning: ".toList ++ m)) =
      p ++ (":LINE: warning: ".toList ++ m) := by
    unfold colonSub
    rw [colonSubGo_plain_append hpcol,
      colonSubGo_id_noColonDigit (noColonDigit_append (by decide)
        (fun hl => absurd hl (by decide)) hmcol)]
  have hlsid : lineSub (p ++ (":LINE: warning: ".toList ++ m)) =
      p ++ (":LINE: warning: ".toList ++ m) := by
    unfold lineSub
    rw [lineSubGo_plain_append hpcol,
      lineSubGo_id_noColonDigit (noColonDigit_append (by decide)
        (fun hl => absurd hl (by decide)) hmcol)]
  unfold normalize_warning_line
  rw [hstrip, hcol, hrs, hdsl, hcsid, hlsid]

/-- C8 (counterexample): `normalize_warning_line` is NOT idempotent on every
diagnostic-shaped line. The line `"././a.c:1: warning: m"` matches
`COMPILER_WARNING_RE` (so it is diagnostic-shaped and is collected by
`extract_normalized_warnings`), yet normalizing it twice differs from
normalizing it once: the first pass strips only the leading `"./"` and the
leftover `"./a.c"` still begins with `"./"`, which the second pass strips
again. -/
theorem normalize_not_idempotent_counterexample :
    warnSearch (ansiStrip ("././a.c:1: warning: m".toList)) = true ∧
    normalize_warning_line (normalize_warning_line ("././a.c:1: warning: m".toList)) ≠
      normalize_warning_line ("././a.c:1: warning: m".toList) := by
  decide

/-- C8 (amended): `normalize_warning_line` is idempotent on well-formed
diagnostic lines — lines of the shape `path:line:col: warning: msg` or
`path:line: warning: msg` where the path is non-empty, free of whitespace,
colons and ESC, and does not itself start with `./`; the line/column fields
are non-empty digit strings; and the message has no colons or ESC, no runs
of whitespace, no space-`./` sequence, and does not start or end with
whitespace. On such lines a second normalization pass changes nothing. -/
theorem normalize_idempotent_on_wellformed {p ds es m : List Char}
    (hp : cleanSeg p = true) (hds : cleanDigits ds = true)
    (hes : cleanDigits es = true) (hm : cleanMsg m = true) :
    normalize_warning_line (normalize_warning_line (mkDiag p ds es m)) =
      normalize_warning_line (mkDiag p ds es m) ∧
    normalize_warning_line (normalize_warning_line (mkDiagLine p ds m)) =
      normalize_warning_line (mkDiagLine p ds m) := by
  constructor
  · rw [normalize_mkDiag hp hds hes hm, normalize_nf_colon hp hm]
  · rw [normalize_mkDiagLine hp hds hm, normalize_nf_line hp hm]

/-- Witness for the amended C8 theorem at a concrete well-formed line. -/
theorem normalize_idempotent_on_wellformed_witness :
    (cleanSeg ("a.c".toList) = true ∧ cleanDigits ("12".toList) = true ∧
     cleanDigits ("3".toList) = true ∧ cleanMsg ("unused variable".toList) = true) ∧
    (normalize_warning_line (normalize_warning_line
        (mkDiag ("a.c".toList) ("12".toList) ("3".toList) ("unused variable".toList))) =
      normalize_warning_line
        (mkDiag ("a.c".toList) ("12".toList) ("3".toList) ("unused variable".toList)) ∧
     normalize_warning_line (normalize_warning_line
        (mkDiagLine ("a.c".toList) ("12".toList) ("unused variable".toList))) =
      normalize_warning_line
        (mkDiagLine ("a.c".toList) ("12".toList) ("unused variable".toList))) :=
  ⟨⟨by decide, by decide, by decide, by decide⟩,
    normalize_idempotent_on_wellformed (by decide) (by decide) (by decide) (by decide)⟩

/-- C9: two well-formed diagnostic lines that differ only in their line
number and/or column number normalize to the same record; moreover the
colon form normalizes to `path:LINE:COL: warning: msg`, i.e. the
line+column pattern fires and the column is rendered as `COL`, never as a
second `LINE` placeholder. -/
theorem normalize_location_insensitive {p ds es ds2 es2 m : List Char}
    (hp : cleanSeg p = true) (hds : cleanDigits ds = true)
    (hes : cleanDigits es = true) (hds2 : cleanDigits ds2 = true)
    (hes2 : cleanDigits es2 = true) (hm : cleanMsg m = true) :
    normalize_warning_line (mkDiag p ds es m) =
      normalize_warning_line (mkDiag p ds2 es2 m) ∧
    normalize_warning_line (mkDiagLine p ds m) =
      normalize_warning_line (mkDiagLine p ds2 m) ∧
    normalize_warning_line (mkDiag p ds es m) =
      p ++ (":LINE:COL: warning: ".toList ++ m) := by
  refine ⟨?_, ?_, normalize_mkDiag hp hds hes hm⟩
  · rw [normalize_mkDiag hp hds hes hm, normalize_mkDiag hp hds2 hes2 hm]
  · rw [normalize_mkDiagLine hp hds hm, normalize_mkDiagLine hp hds2 hm]

/-- Witness for C9 at concrete lines differing only in line/column. -/
theorem normalize_location_insensitive_witness :
    (cleanSeg ("a.c".toList) = true ∧ cleanDigits ("1".toList) = true ∧
     cleanDigits ("2".toList) = true ∧ cleanDigits ("34".toList) = true ∧
     cleanDigits ("56".toList) = true ∧ cleanMsg ("bad cast".toList) = true) ∧
    (normalize_warning_line (mkDiag ("a.c".toList) ("1".toList) ("2".toList) ("bad cast".toList)) =
      normalize_warning_line (mkDiag ("a.c".toList) ("34".toList) ("56".toList) ("bad cast".toList)) ∧
     normalize_warning_line (mkDiagLine ("a.c".toList) ("1".toList) ("bad cast".toList)) =
      normalize_warning_line (mkDiagLine ("a.c".toList) ("34".toList) ("bad cast".toList)) ∧
     normalize_warning_line (mkDiag ("a.c".toList) ("1".toList) ("2".toList) ("bad cast".toList)) =
      "a.c".toList ++ (":LINE:COL: warning: ".toList ++ "bad cast".toList)) :=
  ⟨⟨by decide, by decide, by decide, by decide, by decide, by decide⟩,
    normalize_location_insensitive (by decide) (by decide) (by decide)
      (by decide) (by decide) (by decide)⟩

end Patchlint
